import Mathlib

/-!
Verification development for the PDF Processing & Image Analysis pipeline
(`streamlit_app.py`): document image extraction/naming, prompt synthesis,
inference invocation with fallback, tolerant response parsing, batched
analysis, and result persistence.

Python strings are modelled as lists of characters (`PyStr`).  All
definitions are executable and fuel-based recursions use a fuel that is
provably sufficient, so closed instances evaluate by `decide`/`rfl`.
The Python `json` module is modelled by an executable JSON value type,
serializer (`json.dumps` with its default separators) and recursive-descent
parser (`json.loads`), restricted to integer numerals and to the string
escapes `\" \\ \/ \n \t \r \b \f` (no `\uXXXX`, no floats); every use in
the claims below stays inside this fragment.
-/

abbrev PyStr := List Char

/-- single quote -/
def chSq : Char := Char.ofNat 39
/-- double quote -/
def chDq : Char := Char.ofNat 34
/-- backslash -/
def chBs : Char := Char.ofNat 92
/-- opening curly brace -/
def chOb : Char := Char.ofNat 123
/-- closing curly brace -/
def chCb : Char := Char.ofNat 125
/-- newline -/
def chNl : Char := Char.ofNat 10

/-- Python `str.replace(old, new)` (leftmost, non-overlapping), fuel-based;
`pyReplace` supplies fuel `s.length`, which is always sufficient. -/
def pyReplaceAux (old new : PyStr) : Nat → PyStr → PyStr
  | 0, s => s
  | _ + 1, [] => []
  | f + 1, c :: rest =>
    if old.isPrefixOf (c :: rest) then
      new ++ pyReplaceAux old new f (List.drop old.length (c :: rest))
    else c :: pyReplaceAux old new f rest

def pyReplace (s old new : PyStr) : PyStr :=
  if old = [] then s else pyReplaceAux old new s.length s

/-- Python slice `s[a:b]` for non-negative bounds (clamping as in Python). -/
def pySlice (s : PyStr) (a b : Nat) : PyStr := (s.drop a).take (b - a)

/-- Python `s.index(c)` (position of first occurrence). -/
def firstIdx : PyStr → Char → Option Nat
  | [], _ => none
  | x :: r, c => if x = c then some 0 else (firstIdx r c).map (· + 1)

/-- Python `s.rindex(c)` (position of last occurrence). -/
def lastIdx (s : PyStr) (c : Char) : Option Nat :=
  (firstIdx s.reverse c).map (fun i => s.length - 1 - i)

/-- Python `s.rstrip(chars)`. -/
def pyRstrip (s : PyStr) (cs : List Char) : PyStr :=
  (s.reverse.dropWhile (fun c => cs.contains c)).reverse

/-- decimal digit character -/
def digitChar (n : Nat) : Char := Char.ofNat (48 + n)

/-- decimal representation of a natural number (Python `str(n)`);
fuel-based, `natChars` supplies sufficient fuel. -/
def natCharsAux : Nat → Nat → PyStr
  | 0, _ => []
  | f + 1, n => if n < 10 then [digitChar n] else natCharsAux f (n / 10) ++ [digitChar (n % 10)]

def natChars (n : Nat) : PyStr := natCharsAux (n + 1) n

/-- Python `str(n)` for an integer. -/
def intChars (n : Int) : PyStr :=
  if n < 0 then Char.ofNat 45 :: natChars n.natAbs else natChars n.toNat

/-! ## JSON values (model of the Python `json` module's data) -/

inductive Json where
  | null
  | bool (b : Bool)
  | num (n : Int)
  | str (s : PyStr)
  | arr (elems : List Json)
  | obj (mems : List (PyStr × Json))
deriving Repr

/-- Python `dict` insertion (`d[k] = v`): replace in place if the key is
present, else append; this is how both `json.loads` and the fallback
mapping loops build their dicts. -/
def dictInsert : List (PyStr × Json) → PyStr → Json → List (PyStr × Json)
  | [], k, v => [(k, v)]
  | (k0, v0) :: rest, k, v =>
    if k0 = k then (k, v) :: rest else (k0, v0) :: dictInsert rest k v

/-- Python `dict` lookup `d.get(k)` on a dict built by `dictInsert`. -/
def dictGet : List (PyStr × Json) → PyStr → Option Json
  | [], _ => none
  | (k0, v0) :: rest, k => if k0 = k then some v0 else dictGet rest k

/-- lookup a key of a JSON object (`none` on non-objects). -/
def jObjGet (j : Json) (k : PyStr) : Option Json :=
  match j with
  | .obj kvs => dictGet kvs k
  | _ => none

/-! ### Serializer (`json.dumps`, default separators `", "` and `": "`) -/

/-- escaping of one character inside a JSON string literal -/
def escJsonChar (c : Char) : PyStr :=
  if c = chDq then [chBs, chDq] else if c = chBs then [chBs, chBs] else [c]

def escJsonStr : PyStr → PyStr
  | [] => []
  | c :: r => escJsonChar c ++ escJsonStr r

mutual
def serJson : Json → PyStr
  | .null => ("null").data
  | .bool true => ("true").data
  | .bool false => ("false").data
  | .num n => intChars n
  | .str s => chDq :: escJsonStr s ++ [chDq]
  | .arr [] => [Char.ofNat 91, Char.ofNat 93]
  | .arr (v :: vs) => Char.ofNat 91 :: serJson v ++ serElemsTail vs ++ [Char.ofNat 93]
  | .obj [] => [chOb, chCb]
  | .obj (kv :: kvs) => chOb :: serMem kv ++ serMemsTail kvs ++ [chCb]

def serMem : PyStr × Json → PyStr
  | (k, v) => chDq :: escJsonStr k ++ (chDq :: ':' :: ' ' :: serJson v)

def serElemsTail : List Json → PyStr
  | [] => []
  | v :: vs => ',' :: ' ' :: serJson v ++ serElemsTail vs

def serMemsTail : List (PyStr × Json) → PyStr
  | [] => []
  | kv :: kvs => ',' :: ' ' :: serMem kv ++ serMemsTail kvs
end

/-! ### Parser (`json.loads` on the modelled fragment) -/

def isWsChar (c : Char) : Bool :=
  c = ' ' || c = Char.ofNat 9 || c = chNl || c = Char.ofNat 13

def skipWs : PyStr → PyStr
  | [] => []
  | c :: r => if isWsChar c then skipWs r else c :: r

/-- value of a JSON string escape character (`\uXXXX` not modelled) -/
def unescJsonChar (c : Char) : Option Char :=
  if c = chDq then some chDq
  else if c = chBs then some chBs
  else if c = '/' then some '/'
  else if c = 'n' then some chNl
  else if c = 't' then some (Char.ofNat 9)
  else if c = 'r' then some (Char.ofNat 13)
  else if c = 'b' then some (Char.ofNat 8)
  else if c = 'f' then some (Char.ofNat 12)
  else none

/-- parse the body of a JSON string literal (after the opening quote),
returning the decoded string and the input after the closing quote. -/
def pStrBody : PyStr → PyStr → Option (PyStr × PyStr)
  | [], _ => none
  | c :: r, acc =>
    if c = chDq then some (acc.reverse, r)
    else if c = chBs then
      match r with
      | [] => none
      | e :: r2 =>
        match unescJsonChar e with
        | some ch => pStrBody r2 (ch :: acc)
        | none => none
    else pStrBody r (c :: acc)

/-- consume a maximal run of decimal digits, accumulating their value -/
def pDigits : PyStr → Nat → Nat × PyStr
  | [], acc => (acc, [])
  | c :: r, acc => if c.isDigit then pDigits r (acc * 10 + (c.toNat - 48)) else (acc, c :: r)

def dropLit (lit s : PyStr) : Option PyStr :=
  if lit.isPrefixOf s then some (s.drop lit.length) else none

mutual
def pVal : Nat → PyStr → Option (Json × PyStr)
  | 0, _ => none
  | f + 1, s =>
    match skipWs s with
    | [] => none
    | c :: r =>
      if c = chOb then pObjBody f r
      else if c = Char.ofNat 91 then pArrBody f r
      else if c = chDq then
        match pStrBody r [] with
        | some (cs, rest) => some (.str cs, rest)
        | none => none
      else if c = Char.ofNat 45 then
        match r with
        | d :: _ =>
          if d.isDigit then
            match pDigits r 0 with
            | (n, rest) => some (.num (-(n : Int)), rest)
          else none
        | [] => none
      else if c.isDigit then
        match pDigits (c :: r) 0 with
        | (n, rest) => some (.num (n : Int), rest)
      else if c = 'n' then (dropLit ("ull").data r).map (fun rest => (.null, rest))
      else if c = 't' then (dropLit ("rue").data r).map (fun rest => (.bool true, rest))
      else if c = 'f' then (dropLit ("alse").data r).map (fun rest => (.bool false, rest))
      else none

/-- object body, positioned right after the opening brace -/
def pObjBody : Nat → PyStr → Option (Json × PyStr)
  | 0, _ => none
  | f + 1, s =>
    match skipWs s with
    | [] => none
    | c :: r => if c = chCb then some (.obj [], r) else pMembers f (c :: r) []

def pMembers : Nat → PyStr → List (PyStr × Json) → Option (Json × PyStr)
  | 0, _, _ => none
  | f + 1, s, acc =>
    match skipWs s with
    | [] => none
    | c :: r =>
      if c = chDq then
        match pStrBody r [] with
        | some (key, rest1) =>
          match skipWs rest1 with
          | c2 :: rest2 =>
            if c2 = ':' then
              match pVal f rest2 with
              | some (v, rest3) =>
                match skipWs rest3 with
                | c3 :: rest4 =>
                  if c3 = ',' then pMembers f rest4 (dictInsert acc key v)
                  else if c3 = chCb then some (.obj (dictInsert acc key v), rest4)
                  else none
                | [] => none
              | none => none
            else none
          | [] => none
        | none => none
      else none

/-- array body, positioned right after the opening bracket -/
def pArrBody : Nat → PyStr → Option (Json × PyStr)
  | 0, _ => none
  | f + 1, s =>
    match skipWs s with
    | [] => none
    | c :: r => if c = Char.ofNat 93 then some (.arr [], r) else pElems f (c :: r) []

def pElems : Nat → PyStr → List Json → Option (Json × PyStr)
  | 0, _, _ => none
  | f + 1, s, acc =>
    match pVal f s with
    | some (v, rest) =>
      match skipWs rest with
      | c :: r2 =>
        if c = ',' then pElems f r2 (acc ++ [v])
        else if c = Char.ofNat 93 then some (.arr (acc ++ [v]), r2)
        else none
      | [] => none
    | none => none
end

/-- `json.loads` on a complete input: parse one value and require only
whitespace to remain.  The fuel `4 * length + 8` dominates the recursion
depth of any parse (each step consumes input or descends). -/
def jsonParse (s : PyStr) : Option Json :=
  match pVal (4 * s.length + 8) s with
  | some (v, rest) => if skipWs rest = [] then some v else none
  | none => none

/-! ## Analysis categories and prompt synthesis (`build_analysis_prompt`) -/

structure Category where
  id : PyStr
  name : PyStr
  description : PyStr
deriving Repr, DecidableEq

/-- DEFAULT_CATEGORIES -/
def defaultCategories : List Category :=
  [⟨("for_sale_sign").data, ("For Sale Sign").data,
    ("Is there a \x27For Sale\x27 sign visible?").data⟩,
   ⟨("solar_panels").data, ("Solar Panels").data,
    ("Are there solar panels installed on the property?").data⟩,
   ⟨("human_presence").data, ("Human Presence").data,
    ("Are there any people visible?").data⟩,
   ⟨("potential_damage").data, ("Potential Damage").data,
    ("Is there any visible damage to the property (roof damage, broken windows, structural issues, etc.)?").data⟩]

/-- the `category_text` accumulation, enumerating categories from 1 -/
def categoryTextAux : Nat → List Category → PyStr
  | _, [] => []
  | idx, cat :: rest =>
    natChars idx ++ (". **").data ++ cat.name ++ ("**: ").data ++ cat.description
      ++ [chNl] ++ categoryTextAux (idx + 1) rest

def categoryText (cats : List Category) : PyStr := categoryTextAux 1 cats

/-- the fixed `is_property_image` block opening `json_structure` -/
def jsonStructureHead : PyStr :=
  ("\x7b\n    \"is_property_image\": \x7b\n        \"detected\": true/false,\n        \"confidence\": 0-100,\n        \"description\": \"...\"\n    \x7d,\n").data

/-- the block appended to `json_structure` for one category -/
def jsonStructureCatBlock (cat : Category) : PyStr :=
  ("    \"").data ++ cat.id
    ++ ("\": \x7b\n        \"detected\": true/false,\n        \"confidence\": 0-100,\n        \"description\": \"...\"\n    \x7d,\n").data

def jsonStructure (cats : List Category) : PyStr :=
  pyRstrip (jsonStructureHead ++ cats.foldl (fun acc c => acc ++ jsonStructureCatBlock c) [])
      [',', chNl]
    ++ ("\n\x7d").data

def promptPart1 : PyStr :=
  ("\nIMPORTANT: First determine if this is an actual house or property image. \n- DO NOT analyze logos, company logos, brand marks, maps, diagrams, charts, or non-property images.\n- ONLY analyze if this is a photograph or rendering of an actual residential or commercial property/building.\n\nIf this is NOT a property image (e.g., it\x27s a logo, map, diagram, or text page), return:\n\x7b\n    \"is_property_image\": \x7b\"detected\": false, \"confidence\": 95, \"description\": \"This is a [logo/map/diagram/etc], not a property image\"\x7d,\n    ... (set all other categories to false with 0 confidence)\n\x7d\n\nIf this IS a property or house image, analyze it for the following categories:\n\n").data

def promptPart2 : PyStr :=
  ("\n\nFor each category, provide:\n- A YES/NO answer\n- Confidence level (0-100%)\n- Brief description of what you observed\n\nFormat your response as JSON with this structure:\n").data

def promptPart3 : PyStr :=
  ("\n\nIf this is a text page from a PDF, analyze the text content for mentions of these categories.\n").data

/-- `build_analysis_prompt(categories)` -/
def buildAnalysisPrompt (cats : List Category) : PyStr :=
  promptPart1 ++ categoryText cats ++ promptPart2 ++ jsonStructure cats ++ promptPart3

/-! ## Response normalization
(the identical parse blocks of `analyze_pdf_with_cortex` and
`analyze_single_image`) -/

/-- a `{"detected": …, "confidence": …, "description": …}` JSON entry -/
def entryJson (detected : Bool) (confidence : Int) (description : PyStr) : Json :=
  .obj [(("detected").data, .bool detected),
        (("confidence").data, .num confidence),
        (("description").data, .str description)]

/-- the no-brace branch: every category id maps to a default entry with
description `"Could not parse"`. -/
def couldNotParseFill (cats : List Category) : Json :=
  .obj (cats.foldl
    (fun acc cat => dictInsert acc cat.id (entryJson false 0 ("Could not parse").data)) [])

/-- the exception branch: every category id maps to a default entry; the
description is `response[:200]` for (dicts equal to) the first category and
`""` otherwise. -/
def defaultFillRaw (cats : List Category) (response : PyStr) : Json :=
  .obj (cats.foldl
    (fun acc cat =>
      dictInsert acc cat.id
        (entryJson false 0 (if cats.head? = some cat then response.take 200 else [])))
    [])

/-- the attempted structured decode: `json.loads(response[response.index("\x7b") : response.rindex("\x7d") + 1])`,
`none` when `rindex` raises or the decode fails. -/
def decodeSub (response : PyStr) : Option Json :=
  match lastIdx response chCb with
  | none => none
  | some jEnd =>
    match firstIdx response chOb with
    | none => none
    | some jStart => jsonParse (pySlice response jStart (jEnd + 1))

/-- the full tolerant parse of a raw model response (never raises):
decode on success, `defaultFillRaw` on a decode exception, and
`couldNotParseFill` when the response has no opening brace. -/
def parseResponse (cats : List Category) (response : PyStr) : Json :=
  if response.contains chOb then
    match decodeSub response with
    | some j => j
    | none => defaultFillRaw cats response
  else couldNotParseFill cats

/-! ## SQL string-literal transport -/

/-- Modelled from the spec (the storage/inference collaborator's literal
syntax, not code under src/): the value the SQL engine reads out of a
single-quoted string literal.  A doubled single quote denotes one single
quote and a backslash escapes the character after it.  Only the text
path's fallback doubles backslashes (making its transport exact); the
save and vision paths double only single quotes, so lone backslash
sequences (e.g. the `\"` or `\n` emitted by `json.dumps`) are reachable
there.  On such sequences the uniform `\c` to `c` rule is exact for
self-mapping escapes like `\"` and approximates Snowflake's named escapes
(`\n` decodes to a newline in Snowflake, to `n` here); in either
semantics a lone backslash diverges from the intended text, which is what
C8's counterexample exhibits. -/
def sqlLiteralValue : PyStr → PyStr
  | c1 :: c2 :: rest =>
    if c1 = chBs then c2 :: sqlLiteralValue rest
    else if c1 = chSq ∧ c2 = chSq then chSq :: sqlLiteralValue rest
    else c1 :: sqlLiteralValue (c2 :: rest)
  | s => s

/-- the quote escaping `s.replace("\x27", "\x27\x27")` used for every SQL literal -/
def escSq (s : PyStr) : PyStr := pyReplace s [chSq] [chSq, chSq]

/-- the text path's escaping: quotes, then backslashes -/
def escSqBs (s : PyStr) : PyStr := pyReplace (escSq s) [chBs] [chBs, chBs]

/-! ## Inference gateway -/

/-- the text-only completion of `analyze_pdf_with_cortex`: a primary
`call_function`-based invocation and, on its failure, exactly one retry
through the SQL-literal mechanism; an oracle returning `none` models the
corresponding Python exception.  The caller sees `none` (the
`return None` after `st.error`) only when both invocations fail. -/
def textCortexComplete (primary fallbackSql : PyStr → Option PyStr) (prompt : PyStr) :
    Option PyStr :=
  match primary prompt with
  | some r => some r
  | none => fallbackSql (sqlLiteralValue (escSqBs prompt))

/-- the vision completion of `analyze_single_image`: a single SQL-literal
invocation.  `dfMech` is the dataframe-based mechanism available to the
module (the text path's primary); this path never consults it. -/
def visionCortexComplete (dfMech sqlMech : PyStr → PyStr → Option PyStr)
    (prompt imageName : PyStr) : Option PyStr :=
  sqlMech (sqlLiteralValue (escSq prompt)) imageName

/-! ## Image extraction naming (`extract_images_from_pdf_bytes`) -/

/-- one embedded image object of a PDF page: its `/Filter` name and the
base name of the temporary file the extractor writes it to. -/
structure XImage where
  filterName : Option PyStr
  tmpBaseName : PyStr
deriving Repr, DecidableEq

/-- the extension chosen from the image object's compression filter -/
def extFor : Option PyStr → PyStr
  | some fl =>
    if fl = ("/DCTDecode").data then ("jpg").data
    else if fl = ("/FlateDecode").data then ("png").data
    else if fl = ("/JPXDecode").data then ("jp2").data
    else ("png").data
  | none => ("png").data

/-- `file_name.replace(".pdf", "").replace(" ", "_")` -/
def pdfBaseName (fileName : PyStr) : PyStr :=
  pyReplace (pyReplace fileName (".pdf").data []) ([' ']) (['_'])

/-- the `image_filename` strings the source computes, in extraction order:
`image_counter` starts at 0 before the page loop and increments for every
image object on every page (it is never reset per page). -/
def generatedImageNamesAux (base : PyStr) : Nat → Nat → List (List XImage) → List PyStr
  | _, _, [] => []
  | pageNum, counter, imgs :: rest =>
    imgs.enum.map
        (fun p =>
          base ++ ("_page").data ++ natChars pageNum ++ ("_img").data
            ++ natChars (counter + p.1 + 1) ++ (".").data ++ extFor p.2.filterName)
      ++ generatedImageNamesAux base (pageNum + 1) (counter + imgs.length) rest

def generatedImageNames (fileName : PyStr) (pages : List (List XImage)) : List PyStr :=
  generatedImageNamesAux (pdfBaseName fileName) 1 0 pages

/-- Modelled from the spec (storage collaborator): a stage PUT with
`auto_compress=False` stores the file under the base name of the uploaded
local file and `put_result[0].target` reports that name.  The source
uploads the temporary file itself, so the name it records in
`extracted_images` is the temp file's base name. -/
def recordedImageNames (pages : List (List XImage)) : List PyStr :=
  (pages.flatten).map (fun im => im.tmpBaseName)

/-! ## Batch analysis (`analyze_images_with_cortex`) -/

/-- outcome of `analyze_single_image` on one `(idx, image_name)` work item:
the source's 4-tuple `(idx, name, analysis_json, error)` always has exactly
one of the last two slots populated, modelled as an `Except`.  An oracle
`.error` models the inference call raising; any returned response string is
normalized by `parseResponse` (which never raises) and the item succeeds. -/
def analyzeSingleImage (cats : List Category) (oracle : PyStr → Except PyStr PyStr)
    (item : Nat × PyStr) : Except (Nat × PyStr × PyStr) (Nat × PyStr × Json) :=
  match oracle item.2 with
  | .error e => .error (item.1, item.2, e)
  | .ok resp => .ok (item.1, item.2, parseResponse cats resp)

/-- batch partition by `range(0, total, batch_size)` slicing; fuel-based,
`chunksOf` supplies fuel `l.length` (sufficient whenever `B ≥ 1`; the
source never runs with `batch_size = 0` — the UI slider bounds it to
`[1, 10]`). -/
def chunksOfAux {α : Type _} (B : Nat) : Nat → List α → List (List α)
  | 0, _ => []
  | _ + 1, [] => []
  | f + 1, l => l.take B :: chunksOfAux B f (l.drop B)

def chunksOf {α : Type _} (B : Nat) (l : List α) : List (List α) :=
  if B = 0 then [] else chunksOfAux B l.length l

/-- `[(idx + 1, img) for idx, img in enumerate(image_files)]` -/
def enum1Aux {α : Type _} (i : Nat) : List α → List (Nat × α)
  | [] => []
  | x :: xs => (i, x) :: enum1Aux (i + 1) xs

def enum1 {α : Type _} (l : List α) : List (Nat × α) := enum1Aux 1 l

/-- `analyze_images_with_cortex`: partition the enumerated image list into
batches, run every item of a batch, and collect — an error appends a
warning `(image_name, error)` (the `st.warning` call), a success appends
`(idx, name, analysis_json)` to `all_results`.  Returns
`(all_results, warnings)`. -/
def analyzeImagesWithCortex (cats : List Category) (oracle : PyStr → Except PyStr PyStr)
    (imageFiles : List PyStr) (batchSize : Nat) :
    List (Nat × PyStr × Json) × List (PyStr × PyStr) :=
  (chunksOf batchSize (enum1 imageFiles)).foldl
    (fun acc chunk =>
      (chunk.map (analyzeSingleImage cats oracle)).foldl
        (fun acc2 br =>
          match br with
          | .ok s => (acc2.1 ++ [s], acc2.2)
          | .error e => (acc2.1, acc2.2 ++ [(e.2.1, e.2.2)]))
        acc)
    ([], [])

/-! ## Result persistence (`save_analysis_results`) -/

/-- a well-shaped per-category entry (the data model's
`{detected: bool, confidence: 0-100, description: string}` record shape) -/
structure CatEntry where
  detected : Bool
  confidence : Int
  description : PyStr
deriving Repr, DecidableEq

/-- a per-category mapping with well-shaped entries -/
abbrev PerCategory := List (PyStr × CatEntry)

def entryToJson (e : CatEntry) : Json := entryJson e.detected e.confidence e.description

/-- the JSON object a `PerCategory` mapping denotes -/
def perCategoryJson (m : PerCategory) : Json :=
  .obj (m.map (fun kv => (kv.1, entryToJson kv.2)))

/-- `analysis_json.get(key)` on a well-shaped mapping -/
def pcGet : PerCategory → PyStr → Option CatEntry
  | [], _ => none
  | kv :: rest, k => if kv.1 = k then some kv.2 else pcGet rest k

/-- one row of IMAGE_ANALYSIS_RESULTS as the INSERT populates it -/
structure AnalysisRow where
  fileName : PyStr
  imageName : PyStr
  modelName : PyStr
  pageNumber : Nat
  forSaleSignDetected : Bool
  forSaleSignConfidence : Int
  solarPanelDetected : Bool
  solarPanelConfidence : Int
  humanPresenceDetected : Bool
  humanPresenceConfidence : Int
  potentialDamageDetected : Bool
  potentialDamageConfidence : Int
  damageDescription : PyStr
  fullAnalysisText : PyStr
  metadataText : PyStr
deriving Repr, DecidableEq

/-- `save_analysis_results`: canonical columns via
`analysis_json.get(key, \x7b\x7d).get(field, default)`, METADATA via
`PARSE_JSON('…json.dumps(analysis_json)…')` (here: the literal's decoded
text), FULL_ANALYSIS_TEXT via `full_text[:500]`.  Every string reaches the
table through a quote-escaped single-quoted SQL literal, modelled by
`sqlLiteralValue ∘ escSq`. -/
def saveAnalysisResults (fileName imageName modelName : PyStr) (pageNumber : Nat)
    (analysisJson : PerCategory) (fullText : PyStr) : AnalysisRow :=
  { fileName := sqlLiteralValue (escSq fileName)
    imageName := sqlLiteralValue (escSq imageName)
    modelName := sqlLiteralValue (escSq modelName)
    pageNumber := pageNumber
    forSaleSignDetected :=
      ((pcGet analysisJson ("for_sale_sign").data).map (fun e => e.detected)).getD false
    forSaleSignConfidence :=
      ((pcGet analysisJson ("for_sale_sign").data).map (fun e => e.confidence)).getD 0
    solarPanelDetected :=
      ((pcGet analysisJson ("solar_panels").data).map (fun e => e.detected)).getD false
    solarPanelConfidence :=
      ((pcGet analysisJson ("solar_panels").data).map (fun e => e.confidence)).getD 0
    humanPresenceDetected :=
      ((pcGet analysisJson ("human_presence").data).map (fun e => e.detected)).getD false
    humanPresenceConfidence :=
      ((pcGet analysisJson ("human_presence").data).map (fun e => e.confidence)).getD 0
    potentialDamageDetected :=
      ((pcGet analysisJson ("potential_damage").data).map (fun e => e.detected)).getD false
    potentialDamageConfidence :=
      ((pcGet analysisJson ("potential_damage").data).map (fun e => e.confidence)).getD 0
    damageDescription :=
      sqlLiteralValue (escSq
        (((pcGet analysisJson ("potential_damage").data).map (fun e => e.description)).getD []))
    fullAnalysisText := sqlLiteralValue (escSq (fullText.take 500))
    metadataText := sqlLiteralValue (escSq (serJson (perCategoryJson analysisJson))) }

/-! ## Text-content analysis (`analyze_pdf_with_cortex`, prompt assembly) -/

/-- one row of PDF_TEXT_DATA -/
structure TextRow where
  fileName : PyStr
  pageNumber : Nat
  extractedText : PyStr
deriving Repr, DecidableEq

/-- stable insertion keeping earlier rows first among equal page numbers -/
def insertByPage (r : TextRow) : List TextRow → List TextRow
  | [] => [r]
  | x :: xs => if r.pageNumber ≤ x.pageNumber then r :: x :: xs else x :: insertByPage r xs

/-- ORDER BY PAGE_NUMBER (stable sort) -/
def sortByPage : List TextRow → List TextRow
  | [] => []
  | x :: xs => insertByPage x (sortByPage xs)

/-- Python `sep.join(parts)` -/
def joinSep (sep : PyStr) : List PyStr → PyStr
  | [] => []
  | [x] => x
  | x :: y :: rest => x ++ sep ++ joinSep sep (y :: rest)

def contentHeader : PyStr := ("\n\nContent to analyze:\n").data

def truncationNotice : PyStr := ("\n\n[Content truncated due to length]").data

/-- the view of stored text the analysis reads: the file's rows, ordered by
page number, limited to 5 (`.order_by("PAGE_NUMBER").limit(5)`), each
page's text clipped to its first 1000 characters
(`row['EXTRACTED_TEXT'][:1000]`). -/
def boundedTextView (table : List TextRow) (fileName : PyStr) : List PyStr :=
  ((sortByPage (table.filter (fun r => r.fileName == fileName))).take 5).map
    (fun r => r.extractedText.take 1000)

/-- the prompt `analyze_pdf_with_cortex` sends to the completion
capability: `build_analysis_prompt` plus the joined clipped page texts,
truncated at 10000 characters with a fixed notice appended (`none` models
the early `return None` when the file has no stored text rows). -/
def cortexTextPrompt (cats : List Category) (table : List TextRow) (fileName : PyStr) :
    Option PyStr :=
  if boundedTextView table fileName = [] then none
  else if 10000 < (buildAnalysisPrompt cats ++ contentHeader
      ++ joinSep [' '] (boundedTextView table fileName)).length then
    some ((buildAnalysisPrompt cats ++ contentHeader
        ++ joinSep [' '] (boundedTextView table fileName)).take 10000 ++ truncationNotice)
  else
    some (buildAnalysisPrompt cats ++ contentHeader
      ++ joinSep [' '] (boundedTextView table fileName))


/-- single-character-needle characterization of `pyReplace` (proof helper) -/
def chRep (c : Char) (r : PyStr) : PyStr → PyStr
  | [] => []
  | x :: xs => (if x = c then r else [x]) ++ chRep c r xs

/-- the combined effect of quote-then-backslash escaping, character-wise -/
def sqlEscChar (x : Char) : PyStr :=
  if x = chSq then [chSq, chSq] else if x = chBs then [chBs, chBs] else [x]

def sqlEscAll : PyStr → PyStr
  | [] => []
  | x :: xs => sqlEscChar x ++ sqlEscAll xs

/-- the per-item success outcome of the batch run (proof helper):
`some (idx, name, finding)` iff the unit's inference call returns -/
def itemOk (cats : List Category) (oracle : PyStr → Except PyStr PyStr) (it : Nat × PyStr) :
    Option (Nat × PyStr × Json) :=
  match oracle it.2 with
  | .ok r => some (it.1, it.2, parseResponse cats r)
  | .error _ => none

/-- the per-item failure outcome of the batch run (proof helper) -/
def itemErr (oracle : PyStr → Except PyStr PyStr) (it : Nat × PyStr) :
    Option (PyStr × PyStr) :=
  match oracle it.2 with
  | .error e => some (it.2, e)
  | .ok _ => none

/-- whether the inference call for a unit raises -/
def oracleFails (oracle : PyStr → Except PyStr PyStr) (name : PyStr) : Bool :=
  match oracle name with
  | .error _ => true
  | .ok _ => false

/-- a concrete environment for C6's witness: the inference call raises on
`a.png` and returns a decodable response on every other unit -/
def oracleOneFail : PyStr → Except PyStr PyStr :=
  fun n =>
    if n = ("a.png").data then Except.error ("boom").data
    else Except.ok ("\x7b\"ok\": true\x7d").data

/-- a concrete environment for C6's counterexample: the inference call
returns an unparseable response on `a.png` and a decodable one elsewhere -/
def oracleParseFail : PyStr → Except PyStr PyStr :=
  fun n =>
    if n = ("a.png").data then Except.ok ("unparseable garbage").data
    else Except.ok ("\x7b\"ok\": true\x7d").data

/-- strings free of the characters JSON escaping rewrites -/
def SafeStr (s : PyStr) : Prop := ∀ c ∈ s, ¬ c = chDq ∧ ¬ c = chBs

instance : DecidablePred SafeStr := fun s => List.decidableBAll _ s

/-- the input does not continue with a digit (so a numeral cannot extend) -/
def headNotDigit : PyStr → Bool
  | [] => true
  | c :: _ => !c.isDigit

/-- well-formedness of a per-category mapping: pairwise-distinct keys and
escape-free key/description strings -/
def PerCatWf (m : PerCategory) : Prop :=
  (m.map Prod.fst).Nodup ∧ ∀ kv ∈ m, SafeStr kv.1 ∧ SafeStr kv.2.description

instance : DecidablePred PerCatWf := fun m => by
  unfold PerCatWf
  infer_instance

/-- a concrete well-formed model response mapping for C5's witness, with
the four canonical category entries -/
def perCatW : PerCategory :=
  [(("for_sale_sign").data, ⟨true, 87, ("large red sign").data⟩),
   (("solar_panels").data, ⟨false, 0, ([])⟩),
   (("human_presence").data, ⟨false, 10, ("nobody visible").data⟩),
   (("potential_damage").data, ⟨true, 55, ("roof dent").data⟩)]

/-- a concrete mapping for C8's witness: a custom category present, the
canonical `for_sale_sign` key absent -/
def perCatW8 : PerCategory :=
  [(("solar_panels").data, ⟨true, 92, ("panels on roof").data⟩),
   (("pool_detected").data, ⟨true, 61, ("small pool").data⟩)]

/-- a single custom category with a 12000-character question, for C10's
counterexample (categories are user-extendable) -/
def bigCats : List Category :=
  [⟨("mega").data, ("Mega").data, List.replicate 12000 'd'⟩]

/-- a one-row text table for C10's counterexample -/
def tableW : List TextRow := [⟨("f.pdf").data, 1, ("page one text").data⟩]

/-- two tables for C10's witness: they agree on the first five pages and
differ on a sixth page the analysis never reads -/
def tableA : List TextRow :=
  [⟨("f.pdf").data, 1, ("p1").data⟩, ⟨("f.pdf").data, 2, ("p2").data⟩,
   ⟨("f.pdf").data, 3, ("p3").data⟩, ⟨("f.pdf").data, 4, ("p4").data⟩,
   ⟨("f.pdf").data, 5, ("p5").data⟩, ⟨("f.pdf").data, 6, ("ignored tail page").data⟩]

def tableB : List TextRow :=
  [⟨("f.pdf").data, 1, ("p1").data⟩, ⟨("f.pdf").data, 2, ("p2").data⟩,
   ⟨("f.pdf").data, 3, ("p3").data⟩, ⟨("f.pdf").data, 4, ("p4").data⟩,
   ⟨("f.pdf").data, 5, ("p5").data⟩]

/-- a mapping whose description contains a double quote, for C8's
counterexample: `json.dumps` emits a backslash escape that the quote-only
SQL escaping does not protect -/
def perCatBad : PerCategory :=
  [(("potential_damage").data, ⟨true, 50, ("a\"b").data⟩)]

/-! ## Lemmas: dictionaries and default fills -/

theorem dictInsert_fresh (acc : List (PyStr × Json)) (k : PyStr) (v : Json)
    (h : k ∉ acc.map Prod.fst) : dictInsert acc k v = acc ++ [(k, v)] := by
  induction acc with
  | nil => rfl
  | cons kv rest ih =>
    obtain ⟨k0, v0⟩ := kv
    simp only [List.map_cons, List.mem_cons, not_or] at h
    have hne : ¬ k0 = k := fun hk => h.1 hk.symm
    simp only [dictInsert, if_neg hne, List.cons_append]
    exact congrArg _ (ih h.2)

theorem dictGet_append_right (l₁ l₂ : List (PyStr × Json)) (k : PyStr)
    (h : k ∉ l₁.map Prod.fst) : dictGet (l₁ ++ l₂) k = dictGet l₂ k := by
  induction l₁ with
  | nil => rfl
  | cons kv rest ih =>
    obtain ⟨k0, v0⟩ := kv
    simp only [List.map_cons, List.mem_cons, not_or] at h
    have hne : ¬ k0 = k := fun hk => h.1 hk.symm
    simp only [List.cons_append, dictGet, if_neg hne]
    exact ih h.2

/-- both fallback fills are folds of fresh inserts; with pairwise-distinct
category ids the fold is a plain map. -/
theorem fill_foldl (g : Category → Json) :
    ∀ (cats : List Category) (acc : List (PyStr × Json)),
      (cats.map Category.id).Nodup → (∀ c ∈ cats, c.id ∉ acc.map Prod.fst) →
      cats.foldl (fun a c => dictInsert a c.id (g c)) acc
        = acc ++ cats.map (fun c => (c.id, g c)) := by
  intro cats
  induction cats with
  | nil => intro acc _ _; simp
  | cons c rest ih =>
    intro acc hnd hdisj
    simp only [List.map_cons, List.nodup_cons] at hnd
    simp only [List.foldl_cons]
    rw [dictInsert_fresh acc c.id (g c) (hdisj c (List.mem_cons_self c rest))]
    rw [ih (acc ++ [(c.id, g c)]) hnd.2]
    · simp
    · intro d hd
      simp only [List.map_append, List.mem_append, List.map_cons, not_or]
      refine ⟨fun hmem => hdisj d (List.mem_cons_of_mem c hd) hmem, ?_⟩
      simp only [List.map_nil, List.mem_singleton]
      intro heq
      exact hnd.1 (heq ▸ List.mem_map_of_mem Category.id hd)

theorem dictGet_map_of_mem (g : Category → Json) :
    ∀ (cats : List Category), (cats.map Category.id).Nodup →
      ∀ c ∈ cats, dictGet (cats.map (fun c => (c.id, g c))) c.id = some (g c) := by
  intro cats
  induction cats with
  | nil => intro _ c hc; cases hc
  | cons c0 rest ih =>
    intro hnd c hc
    simp only [List.map_cons, List.nodup_cons] at hnd
    rcases List.mem_cons.mp hc with h | h
    · subst h; simp [dictGet]
    · have hne : ¬ c0.id = c.id := by
        intro heq
        exact hnd.1 (heq ▸ List.mem_map_of_mem Category.id h)
      simp only [List.map_cons, dictGet, if_neg hne]
      exact ih hnd.2 c h

theorem couldNotParseFill_get (cats : List Category)
    (hnd : (cats.map Category.id).Nodup) (c : Category) (hc : c ∈ cats) :
    jObjGet (couldNotParseFill cats) c.id
      = some (entryJson false 0 ("Could not parse").data) := by
  unfold couldNotParseFill jObjGet
  rw [fill_foldl _ cats [] hnd (by simp)]
  simp only [List.nil_append]
  exact dictGet_map_of_mem _ cats hnd c hc

theorem defaultFillRaw_get (cats : List Category) (response : PyStr)
    (hnd : (cats.map Category.id).Nodup) (c : Category) (hc : c ∈ cats) :
    jObjGet (defaultFillRaw cats response) c.id
      = some (entryJson false 0 (if cats.head? = some c then response.take 200 else [])) := by
  unfold defaultFillRaw jObjGet
  rw [fill_foldl _ cats [] hnd (by simp)]
  simp only [List.nil_append]
  exact dictGet_map_of_mem _ cats hnd c hc

theorem parseResponse_of_decode_failure (cats : List Category) (response : PyStr)
    (hb : response.contains chOb = true) (hfail : decodeSub response = none) :
    parseResponse cats response = defaultFillRaw cats response := by
  have hb2 : chOb ∈ response := by simpa using hb
  simp [parseResponse, hb2, hfail]

theorem parseResponse_of_no_brace (cats : List Category) (response : PyStr)
    (hb : response.contains chOb = false) :
    parseResponse cats response = couldNotParseFill cats := by
  have hb2 : chOb ∉ response := by simpa using hb
  simp [parseResponse, hb2]

theorem parseResponse_of_decode_success (cats : List Category) (response : PyStr) (j : Json)
    (hb : response.contains chOb = true) (hd : decodeSub response = some j) :
    parseResponse cats response = j := by
  have hb2 : chOb ∈ response := by simpa using hb
  simp [parseResponse, hb2, hd]

/-! ## Claims C1 and C4 -/

/-- C1 (amended): whenever the structured decode of a raw response does not
succeed (`decodeSub = none`, covering both the brace-substring decode
failure and any response the decode path rejects), the per_category mapping
the analysis produces, persists and returns contains an entry for every
active category id, with `detected` the boolean `false` and `confidence`
the integer `0` (which lies in [0,100]).  On decode success the decoded
mapping is used as-is, with no completeness or range guarantee — the claim
as stated is refuted by `claim_C1_counterexample`. -/
theorem claim_C1_per_category_completeness (cats : List Category) (response : PyStr)
    (hnd : (cats.map Category.id).Nodup) (hfail : decodeSub response = none) :
    ∀ c ∈ cats, ∃ d : PyStr,
      jObjGet (parseResponse cats response) c.id = some (entryJson false 0 d) := by
  intro c hc
  cases hb : response.contains chOb with
  | true =>
    rw [parseResponse_of_decode_failure cats response hb hfail]
    exact ⟨_, defaultFillRaw_get cats response hnd c hc⟩
  | false =>
    rw [parseResponse_of_no_brace cats response hb]
    exact ⟨_, couldNotParseFill_get cats hnd c hc⟩

/-- C1 witness: the amended claim applied to the default categories and a
response with no parseable JSON. -/
theorem claim_C1_witness :
    ((defaultCategories.map Category.id).Nodup) ∧
      (decodeSub ("no json here").data = none) ∧
      (∀ c ∈ defaultCategories, ∃ d : PyStr,
        jObjGet (parseResponse defaultCategories ("no json here").data) c.id
          = some (entryJson false 0 d)) :=
  ⟨by decide, rfl,
    claim_C1_per_category_completeness defaultCategories (("no json here").data) (by decide) rfl⟩

/-- C1 counterexample: a raw response that decodes successfully as JSON but
omits the expected keys is used as-is, so the resulting per_category
mapping has no entry for the active category id `for_sale_sign` — refuting
the claim's "including when the raw response decodes successfully as JSON
but omits some expected keys". -/
theorem claim_C1_counterexample :
    decodeSub ("\x7b\"is_property_image\": \x7b\"detected\": true, \"confidence\": 90, \"description\": \"house\"\x7d\x7d").data
        = some (Json.obj [(("is_property_image").data, entryJson true 90 ("house").data)]) ∧
      jObjGet
          (parseResponse defaultCategories
            ("\x7b\"is_property_image\": \x7b\"detected\": true, \"confidence\": 90, \"description\": \"house\"\x7d\x7d").data)
          ("for_sale_sign").data = none ∧
      ("for_sale_sign").data ∈ defaultCategories.map Category.id :=
  ⟨rfl, rfl, by decide⟩

/-- C4 (amended): on every response whose structured decode does not
succeed the normalizer returns (it is total, hence never raises) a mapping
containing every active category id with `detected = false` and
`confidence = 0`; when the response contains an opening brace (the decode
raised), the first category's description is the first 200 characters of
the raw response and every other category's description is empty, but when
the response contains no opening brace at all, every category's
description is the fixed string `"Could not parse"` — the latter branch
refutes the claim as stated (`claim_C4_counterexample`). -/
theorem claim_C4_decode_failure_fill (cats : List Category) (response : PyStr)
    (hnd : (cats.map Category.id).Nodup) (hfail : decodeSub response = none) :
    (response.contains chOb = true →
      ∀ c ∈ cats, jObjGet (parseResponse cats response) c.id
        = some (entryJson false 0 (if cats.head? = some c then response.take 200 else []))) ∧
    (response.contains chOb = false →
      ∀ c ∈ cats, jObjGet (parseResponse cats response) c.id
        = some (entryJson false 0 ("Could not parse").data)) := by
  constructor
  · intro hb c hc
    rw [parseResponse_of_decode_failure cats response hb hfail]
    exact defaultFillRaw_get cats response hnd c hc
  · intro hb c hc
    rw [parseResponse_of_no_brace cats response hb]
    exact couldNotParseFill_get cats hnd c hc

/-- C4 witness: the amended claim applied to the default categories and a
response that contains an opening brace but no closing one (so `rindex`
raises and the decode fails). -/
theorem claim_C4_witness :
    ((defaultCategories.map Category.id).Nodup) ∧
      (decodeSub ("Result: \x7b not json").data = none) ∧
      ((("Result: \x7b not json").data.contains chOb = true →
        ∀ c ∈ defaultCategories,
          jObjGet (parseResponse defaultCategories ("Result: \x7b not json").data) c.id
            = some (entryJson false 0
                (if defaultCategories.head? = some c
                 then ("Result: \x7b not json").data.take 200 else []))) ∧
       (("Result: \x7b not json").data.contains chOb = false →
        ∀ c ∈ defaultCategories,
          jObjGet (parseResponse defaultCategories ("Result: \x7b not json").data) c.id
            = some (entryJson false 0 ("Could not parse").data))) :=
  ⟨by decide, rfl,
    claim_C4_decode_failure_fill defaultCategories (("Result: \x7b not json").data)
      (by decide) rfl⟩

/-- C4 counterexample: on the non-JSON response `"sorry"` (no opening
brace — a string on which structured decode certainly fails) every
category's description is `"Could not parse"`: the first category's
description is not the 200-character prefix of the raw response and the
other categories' descriptions are not empty, refuting the claim as
stated. -/
theorem claim_C4_counterexample :
    jObjGet (parseResponse defaultCategories ("sorry").data) ("for_sale_sign").data
        = some (entryJson false 0 ("Could not parse").data) ∧
      jObjGet (parseResponse defaultCategories ("sorry").data) ("solar_panels").data
        = some (entryJson false 0 ("Could not parse").data) ∧
      ("Could not parse").data ≠ ("sorry").data.take 200 ∧
      ("Could not parse").data ≠ ([] : PyStr) :=
  ⟨rfl, rfl, by decide, by decide⟩

/-! ## Claims C9 and C2 -/

/-- C9: prompt synthesis is deterministic — `build_analysis_prompt` is a
pure function of the category list alone (no randomness and no timestamps
occur anywhere in its embedding), so any two invocations on an unchanged
CategorySchema state yield byte-identical prompt strings. -/
theorem claim_C9_prompt_deterministic (c1 c2 : List Category) (h : c1 = c2) :
    buildAnalysisPrompt c1 = buildAnalysisPrompt c2 :=
  congrArg buildAnalysisPrompt h

/-- C9 witness: two invocations on the default schema agree. -/
theorem claim_C9_witness :
    defaultCategories = defaultCategories ∧
      buildAnalysisPrompt defaultCategories = buildAnalysisPrompt defaultCategories :=
  ⟨rfl, claim_C9_prompt_deterministic defaultCategories defaultCategories rfl⟩

/-- C2: evaluation of the image-extraction naming at a failing input, a
document `doc.pdf` with one image on page 1 and one image on page 2.
(1) The generated `image_filename` for the page-2 image is
`doc_page2_img2.png`: `image_counter` is a per-document counter that is
never reset, so the claimed per-page sequence restart does not happen and
the claimed name `doc_page2_img1.png` is never generated.
(2) The names actually recorded (and later used for retrieval) are the
temporary files' base names reported by the stage PUT: the generated
names are computed but never applied to the upload, contradicting the
code's own "Create a meaningful filename" intent. -/
theorem claim_C2_name_mismatch :
    generatedImageNames ("doc.pdf").data
        [[⟨some ("/DCTDecode").data, ("tmpk3x9q.jpg").data⟩],
         [⟨none, ("tmpv7r2m.png").data⟩]]
      = [("doc_page1_img1.jpg").data, ("doc_page2_img2.png").data] ∧
    recordedImageNames
        [[⟨some ("/DCTDecode").data, ("tmpk3x9q.jpg").data⟩],
         [⟨none, ("tmpv7r2m.png").data⟩]]
      = [("tmpk3x9q.jpg").data, ("tmpv7r2m.png").data] ∧
    recordedImageNames
        [[⟨some ("/DCTDecode").data, ("tmpk3x9q.jpg").data⟩],
         [⟨none, ("tmpv7r2m.png").data⟩]]
      ≠ generatedImageNames ("doc.pdf").data
          [[⟨some ("/DCTDecode").data, ("tmpk3x9q.jpg").data⟩],
           [⟨none, ("tmpv7r2m.png").data⟩]] ∧
    ("doc_page2_img1.png").data ∉ generatedImageNames ("doc.pdf").data
        [[⟨some ("/DCTDecode").data, ("tmpk3x9q.jpg").data⟩],
         [⟨none, ("tmpv7r2m.png").data⟩]] :=
  ⟨by decide, by decide, by decide, by decide⟩

/-! ## Lemmas: SQL literal escaping round trip -/

theorem pyReplaceAux_single (c : Char) (r : PyStr) :
    ∀ (s : PyStr) (f : Nat), s.length ≤ f → pyReplaceAux [c] r f s = chRep c r s := by
  intro s
  induction s with
  | nil => intro f _; cases f <;> rfl
  | cons x xs ih =>
    intro f hf
    cases f with
    | zero => simp at hf
    | succ f0 =>
      simp only [List.length_cons, Nat.succ_le_succ_iff] at hf
      by_cases hx : x = c
      · subst hx
        have hpre : ([x].isPrefixOf (x :: xs)) = true := by
          simp [List.isPrefixOf]
        simp only [pyReplaceAux, hpre, if_true, List.length_singleton, List.drop_succ_cons,
          List.drop_zero, chRep, if_pos rfl]
        rw [ih f0 hf]
      · have hpre : ([c].isPrefixOf (x :: xs)) = false := by
          simp only [List.isPrefixOf, List.isPrefixOf_nil_left, Bool.and_true, beq_eq_false_iff_ne]
          exact fun h => hx h.symm
        simp only [pyReplaceAux, hpre, Bool.false_eq_true, if_false, chRep, if_neg hx,
          List.singleton_append]
        rw [ih f0 hf]

theorem pyReplace_single (s : PyStr) (c : Char) (r : PyStr) :
    pyReplace s [c] r = chRep c r s := by
  unfold pyReplace
  rw [if_neg (by simp)]
  exact pyReplaceAux_single c r s s.length le_rfl

theorem chRep_append (c : Char) (r : PyStr) (a b : PyStr) :
    chRep c r (a ++ b) = chRep c r a ++ chRep c r b := by
  induction a with
  | nil => rfl
  | cons x xs ih => simp [chRep, ih]

theorem sqlEscChar_ne_nil (x : Char) : sqlEscChar x ≠ [] := by
  unfold sqlEscChar
  split
  · simp
  · split <;> simp

theorem escSq_eq_chRep (s : PyStr) : escSq s = chRep chSq [chSq, chSq] s :=
  pyReplace_single s chSq [chSq, chSq]

theorem escSqBs_eq_sqlEscAll (s : PyStr) : escSqBs s = sqlEscAll s := by
  unfold escSqBs
  rw [pyReplace_single, escSq_eq_chRep]
  induction s with
  | nil => rfl
  | cons x xs ih =>
    simp only [chRep, chRep_append, sqlEscAll, ih]
    congr 1
    by_cases h1 : x = chSq
    · subst h1
      have hne : ¬ chSq = chBs := by decide
      simp [chRep, sqlEscChar, hne]
    · by_cases h2 : x = chBs
      · subst h2
        simp [chRep, sqlEscChar, h1]
      · simp [chRep, sqlEscChar, h1, h2]

theorem escSq_eq_sqlEscAll (s : PyStr) (h : chBs ∉ s) : escSq s = sqlEscAll s := by
  rw [escSq_eq_chRep]
  induction s with
  | nil => rfl
  | cons x xs ih =>
    simp only [List.mem_cons, not_or] at h
    simp only [chRep, sqlEscAll]
    congr 1
    · by_cases h1 : x = chSq
      · simp [h1, sqlEscChar]
      · have hxb : ¬ x = chBs := fun hx => h.1 hx.symm
        simp [sqlEscChar, h1, hxb]
    · exact ih h.2

theorem sqlLiteralValue_bs (c2 : Char) (rest : PyStr) :
    sqlLiteralValue (chBs :: c2 :: rest) = c2 :: sqlLiteralValue rest := by
  simp [sqlLiteralValue]

theorem sqlLiteralValue_sqsq (rest : PyStr) :
    sqlLiteralValue (chSq :: chSq :: rest) = chSq :: sqlLiteralValue rest := by
  have hne : ¬ chSq = chBs := by decide
  simp [sqlLiteralValue, hne]

theorem sqlLiteralValue_other (c1 c2 : Char) (rest : PyStr) (h1 : ¬ c1 = chBs)
    (h2 : ¬ (c1 = chSq ∧ c2 = chSq)) :
    sqlLiteralValue (c1 :: c2 :: rest) = c1 :: sqlLiteralValue (c2 :: rest) := by
  simp [sqlLiteralValue, h1, h2]

theorem sqlLiteralValue_sqlEscAll (s : PyStr) : sqlLiteralValue (sqlEscAll s) = s := by
  induction s with
  | nil => rfl
  | cons x xs ih =>
    by_cases h1 : x = chSq
    · subst h1
      have hc : sqlEscAll (chSq :: xs) = chSq :: chSq :: sqlEscAll xs := by
        simp [sqlEscAll, sqlEscChar]
      rw [hc, sqlLiteralValue_sqsq, ih]
    · by_cases h2 : x = chBs
      · subst h2
        have hc : sqlEscAll (chBs :: xs) = chBs :: chBs :: sqlEscAll xs := by
          have hne : ¬ chBs = chSq := by decide
          simp [sqlEscAll, sqlEscChar, hne]
        rw [hc, sqlLiteralValue_bs, ih]
      · have hc : sqlEscAll (x :: xs) = x :: sqlEscAll xs := by
          simp [sqlEscAll, sqlEscChar, h1, h2]
        rw [hc]
        cases xs with
        | nil => rfl
        | cons y ys =>
          obtain ⟨t, ts, hE⟩ : ∃ t ts, sqlEscAll (y :: ys) = t :: ts := by
            cases hE2 : sqlEscAll (y :: ys) with
            | nil =>
              exfalso
              apply sqlEscChar_ne_nil y
              have h3 : sqlEscChar y ++ sqlEscAll ys = [] := hE2
              exact (List.append_eq_nil.mp h3).1
            | cons t ts => exact ⟨t, ts, rfl⟩
          rw [hE, sqlLiteralValue_other x t ts h2 (fun hand => h1 hand.1), ← hE, ih]

theorem sqlLiteralValue_escSqBs (s : PyStr) : sqlLiteralValue (escSqBs s) = s := by
  rw [escSqBs_eq_sqlEscAll]; exact sqlLiteralValue_sqlEscAll s

theorem sqlLiteralValue_escSq (s : PyStr) (h : chBs ∉ s) :
    sqlLiteralValue (escSq s) = s := by
  rw [escSq_eq_sqlEscAll s h]; exact sqlLiteralValue_sqlEscAll s

/-! ## Claim C3 -/

/-- C3 (amended): the text-only path retries exactly once through the
SQL-literal mechanism when the primary `call_function` invocation fails,
the fallback receives byte-identical prompt content (the quote/backslash
escaping composed with the literal's decoding is the identity), and the
caller sees failure (`None`) only when both mechanisms have failed — never
silently.  The vision path makes a single SQL attempt and never consults
the alternate dataframe mechanism (its result is invariant under changing
that mechanism); its failure is still surfaced to the caller as a recorded
per-unit error, not swallowed.  The claim as stated — a fallback retry on
the vision path too — is refuted by `claim_C3_counterexample`. -/
theorem claim_C3_fallback_policy (primary fallbackSql : PyStr → Option PyStr)
    (prompt : PyStr) :
    (textCortexComplete primary fallbackSql prompt
        = (primary prompt).orElse (fun _ => fallbackSql prompt)) ∧
    (textCortexComplete primary fallbackSql prompt = none ↔
      primary prompt = none ∧ fallbackSql prompt = none) ∧
    (∀ (df1 df2 sqlMech : PyStr → PyStr → Option PyStr) (p img : PyStr),
      visionCortexComplete df1 sqlMech p img = visionCortexComplete df2 sqlMech p img) := by
  refine ⟨?_, ?_, fun df1 df2 sqlMech p img => rfl⟩
  · unfold textCortexComplete
    rw [sqlLiteralValue_escSqBs]
    cases primary prompt <;> rfl
  · unfold textCortexComplete
    rw [sqlLiteralValue_escSqBs]
    cases h : primary prompt <;> simp [h]

/-- C3 counterexample: an environment where the vision path's sole (SQL)
mechanism fails while the module's alternate dataframe mechanism would
succeed; the vision call surfaces failure without the claimed retry, so
failure is not "reported only after both mechanisms have failed". -/
theorem claim_C3_counterexample :
    visionCortexComplete (fun _ _ => some ("ok").data) (fun _ _ => none)
        ("analyze the image").data ("img1.png").data = none ∧
    (fun (_ _ : PyStr) => some ("ok").data) ("analyze the image").data ("img1.png").data
      = some ("ok").data :=
  ⟨rfl, rfl⟩

/-! ## Lemmas: batch partitioning and collection -/

theorem chunksOfAux_flatten {α : Type _} (B : Nat) (hB : 1 ≤ B) :
    ∀ (f : Nat) (l : List α), l.length ≤ f → (chunksOfAux B f l).flatten = l := by
  intro f
  induction f with
  | zero =>
    intro l hl
    rw [List.length_eq_zero.mp (Nat.le_zero.mp hl)]
    rfl
  | succ f0 ih =>
    intro l hl
    cases l with
    | nil => rfl
    | cons x xs =>
      simp only [chunksOfAux, List.flatten_cons]
      rw [ih ((x :: xs).drop B) (by simp only [List.length_drop, List.length_cons] at hl ⊢; omega)]
      exact List.take_append_drop B (x :: xs)

theorem chunksOfAux_length {α : Type _} (B : Nat) (hB : 1 ≤ B) :
    ∀ (f : Nat) (l : List α), l.length ≤ f →
      (chunksOfAux B f l).length = if l.length = 0 then 0 else (l.length - 1) / B + 1 := by
  intro f
  induction f with
  | zero =>
    intro l hl
    rw [List.length_eq_zero.mp (Nat.le_zero.mp hl)]
    rfl
  | succ f0 ih =>
    intro l hl
    cases l with
    | nil => rfl
    | cons x xs =>
      simp only [chunksOfAux, List.length_cons]
      rw [ih ((x :: xs).drop B) (by simp only [List.length_drop, List.length_cons] at hl ⊢; omega)]
      simp only [List.length_drop, List.length_cons]
      by_cases hle : xs.length + 1 ≤ B
      · rw [if_pos (by omega), if_neg (by omega)]
        have hlt : xs.length + 1 - 1 < B := by omega
        rw [Nat.div_eq_of_lt hlt]
      · rw [if_neg (by omega), if_neg (by omega)]
        have h1 : xs.length + 1 - 1 = (xs.length + 1 - B - 1) + B := by omega
        rw [h1, Nat.add_div_right _ (by omega)]

theorem chunksOfAux_sizes {α : Type _} (B : Nat) :
    ∀ (f : Nat) (l : List α), ∀ c ∈ chunksOfAux B f l, c.length ≤ B := by
  intro f
  induction f with
  | zero => intro l c hc; cases hc
  | succ f0 ih =>
    intro l c hc
    cases l with
    | nil => cases hc
    | cons x xs =>
      simp only [chunksOfAux, List.mem_cons] at hc
      rcases hc with h | h
      · subst h
        exact le_trans (List.length_take_le B (x :: xs)) le_rfl
      · exact ih _ c h

theorem chunksOf_flatten {α : Type _} (B : Nat) (hB : 1 ≤ B) (l : List α) :
    (chunksOf B l).flatten = l := by
  unfold chunksOf
  rw [if_neg (by omega)]
  exact chunksOfAux_flatten B hB l.length l le_rfl

theorem chunksOf_length {α : Type _} (B : Nat) (hB : 1 ≤ B) (l : List α) :
    (chunksOf B l).length = (l.length + B - 1) / B := by
  unfold chunksOf
  rw [if_neg (by omega)]
  rw [chunksOfAux_length B hB l.length l le_rfl]
  by_cases h0 : l.length = 0
  · rw [if_pos h0, h0]
    rw [Nat.div_eq_of_lt (by omega)]
  · rw [if_neg h0]
    have h1 : l.length + B - 1 = (l.length - 1) + B := by omega
    rw [h1, Nat.add_div_right _ (by omega)]

theorem collect_fold (cats : List Category) (oracle : PyStr → Except PyStr PyStr) :
    ∀ (items : List (Nat × PyStr))
      (acc : List (Nat × PyStr × Json) × List (PyStr × PyStr)),
      (items.map (analyzeSingleImage cats oracle)).foldl
          (fun acc2 br =>
            match br with
            | .ok s => (acc2.1 ++ [s], acc2.2)
            | .error e => (acc2.1, acc2.2 ++ [(e.2.1, e.2.2)]))
          acc
        = (acc.1 ++ items.filterMap (itemOk cats oracle),
           acc.2 ++ items.filterMap (itemErr oracle)) := by
  intro items
  induction items with
  | nil => intro acc; simp
  | cons it rest ih =>
    intro acc
    simp only [List.map_cons, List.foldl_cons, List.filterMap_cons]
    cases h : oracle it.2 with
    | ok r =>
      simp only [analyzeSingleImage, h, itemOk, itemErr]
      rw [ih]
      simp
    | error e =>
      simp only [analyzeSingleImage, h, itemOk, itemErr]
      rw [ih]
      simp

theorem chunks_fold (cats : List Category) (oracle : PyStr → Except PyStr PyStr) :
    ∀ (chunks : List (List (Nat × PyStr)))
      (acc : List (Nat × PyStr × Json) × List (PyStr × PyStr)),
      chunks.foldl
          (fun acc chunk =>
            (chunk.map (analyzeSingleImage cats oracle)).foldl
              (fun acc2 br =>
                match br with
                | .ok s => (acc2.1 ++ [s], acc2.2)
                | .error e => (acc2.1, acc2.2 ++ [(e.2.1, e.2.2)]))
              acc)
          acc
        = (acc.1 ++ chunks.flatten.filterMap (itemOk cats oracle),
           acc.2 ++ chunks.flatten.filterMap (itemErr oracle)) := by
  intro chunks
  induction chunks with
  | nil => intro acc; simp
  | cons chunk rest ih =>
    intro acc
    simp only [List.foldl_cons, List.flatten_cons, List.filterMap_append]
    rw [collect_fold cats oracle chunk acc, ih]
    simp

/-- the master shape of a batch run: with any positive batch size, the
successes are exactly the in-order per-unit findings of the units whose
inference call returns, and the warnings are exactly the in-order failures
of the units whose call raises. -/
theorem analyzeImages_eq (cats : List Category) (oracle : PyStr → Except PyStr PyStr)
    (files : List PyStr) (B : Nat) (hB : 1 ≤ B) :
    analyzeImagesWithCortex cats oracle files B
      = ((enum1 files).filterMap (itemOk cats oracle),
         (enum1 files).filterMap (itemErr oracle)) := by
  unfold analyzeImagesWithCortex
  rw [chunks_fold cats oracle (chunksOf B (enum1 files)) ([], [])]
  rw [chunksOf_flatten B hB (enum1 files)]
  simp

theorem filterMap_itemErr_length (oracle : PyStr → Except PyStr PyStr) :
    ∀ (items : List (Nat × PyStr)),
      (items.filterMap (itemErr oracle)).length
        = items.countP (fun it => oracleFails oracle it.2) := by
  intro items
  induction items with
  | nil => rfl
  | cons it rest ih =>
    simp only [List.filterMap_cons, List.countP_cons]
    cases h : oracle it.2 with
    | ok r => simp [itemErr, h, oracleFails, ih]
    | error e => simp [itemErr, h, oracleFails, ih]

theorem filterMap_ok_add_err (cats : List Category) (oracle : PyStr → Except PyStr PyStr) :
    ∀ (items : List (Nat × PyStr)),
      (items.filterMap (itemOk cats oracle)).length
          + (items.filterMap (itemErr oracle)).length
        = items.length := by
  intro items
  induction items with
  | nil => rfl
  | cons it rest ih =>
    simp only [List.filterMap_cons, List.length_cons]
    cases h : oracle it.2 with
    | ok r =>
      simp only [itemOk, itemErr, h, List.length_cons]
      omega
    | error e =>
      simp only [itemOk, itemErr, h, List.length_cons]
      omega

theorem countP_enum1Aux (p : PyStr → Bool) :
    ∀ (l : List PyStr) (i : Nat),
      (enum1Aux i l).countP (fun it => p it.2) = l.countP p := by
  intro l
  induction l with
  | nil => intro i; rfl
  | cons x xs ih =>
    intro i
    simp only [enum1Aux, List.countP_cons, ih]

theorem countP_enum1 (p : PyStr → Bool) (files : List PyStr) :
    (enum1 files).countP (fun it => p it.2) = files.countP p :=
  countP_enum1Aux p files 1

theorem enum1_length {α : Type _} (l : List α) : (enum1 l).length = l.length := by
  unfold enum1
  generalize 1 = i
  induction l generalizing i with
  | nil => rfl
  | cons x xs ih => simp [enum1Aux, ih]

/-! ## Claims C6 and C7 -/

/-- C6 (amended): in any batch run (batch size ≥ 1) over a group of B ≥ 2
units in which exactly one unit's inference call raises, exactly 1 failure
is recorded (one warning) and exactly B − 1 successful Findings are
produced; the failed unit cancels nothing — the successes are exactly the
in-order findings of every non-raising unit — and every unit is resolved
(successes + recorded failures = units).  A unit whose response merely
fails to parse is not a recorded failure: the normalizer downgrades it to
a default-filled Finding that counts as a success, which refutes the
claim's "inference or parsing fails" disjunct (`claim_C6_counterexample`). -/
theorem claim_C6_single_failure_isolation (cats : List Category)
    (oracle : PyStr → Except PyStr PyStr) (files : List PyStr) (B : Nat)
    (hB : 1 ≤ B) (h2 : 2 ≤ files.length)
    (hone : files.countP (oracleFails oracle) = 1) :
    ((analyzeImagesWithCortex cats oracle files B).2.length = 1) ∧
    ((analyzeImagesWithCortex cats oracle files B).1.length = files.length - 1) ∧
    ((analyzeImagesWithCortex cats oracle files B).1.length
        + (analyzeImagesWithCortex cats oracle files B).2.length = files.length) ∧
    ((analyzeImagesWithCortex cats oracle files B).1
        = (enum1 files).filterMap (itemOk cats oracle)) := by
  rw [analyzeImages_eq cats oracle files B hB]
  dsimp only
  have herr : ((enum1 files).filterMap (itemErr oracle)).length = 1 := by
    rw [filterMap_itemErr_length, countP_enum1, hone]
  have hsum := filterMap_ok_add_err cats oracle (enum1 files)
  rw [enum1_length] at hsum
  exact ⟨herr, by omega, by omega, rfl⟩

/-- C6 witness: a two-unit group with batch size 2 where the call for
`a.png` raises and the call for `b.png` returns. -/
theorem claim_C6_witness :
    (1 ≤ 2) ∧ (2 ≤ ([("a.png").data, ("b.png").data] : List PyStr).length) ∧
    (([("a.png").data, ("b.png").data] : List PyStr).countP (oracleFails oracleOneFail) = 1) ∧
    (((analyzeImagesWithCortex defaultCategories oracleOneFail
          [("a.png").data, ("b.png").data] 2).2.length = 1) ∧
     ((analyzeImagesWithCortex defaultCategories oracleOneFail
          [("a.png").data, ("b.png").data] 2).1.length
        = ([("a.png").data, ("b.png").data] : List PyStr).length - 1) ∧
     ((analyzeImagesWithCortex defaultCategories oracleOneFail
          [("a.png").data, ("b.png").data] 2).1.length
         + (analyzeImagesWithCortex defaultCategories oracleOneFail
             [("a.png").data, ("b.png").data] 2).2.length
        = ([("a.png").data, ("b.png").data] : List PyStr).length) ∧
     ((analyzeImagesWithCortex defaultCategories oracleOneFail
          [("a.png").data, ("b.png").data] 2).1
        = (enum1 [("a.png").data, ("b.png").data]).filterMap
            (itemOk defaultCategories oracleOneFail))) :=
  ⟨by decide, by decide, by decide,
    claim_C6_single_failure_isolation defaultCategories oracleOneFail
      [("a.png").data, ("b.png").data] 2 (by decide) (by decide) (by decide)⟩

/-- C6 counterexample: a group of B = 2 units in which exactly one unit's
response fails to parse (its structured decode yields nothing while the
sibling's decodes) produces 2 successful Findings and records 0 failures —
not the claimed 1 failure and B − 1 = 1 success. -/
theorem claim_C6_counterexample :
    decodeSub ("unparseable garbage").data = none ∧
    decodeSub ("\x7b\"ok\": true\x7d").data
      = some (Json.obj [(("ok").data, Json.bool true)]) ∧
    (analyzeImagesWithCortex defaultCategories oracleParseFail
        [("a.png").data, ("b.png").data] 2).1.length = 2 ∧
    (analyzeImagesWithCortex defaultCategories oracleParseFail
        [("a.png").data, ("b.png").data] 2).2.length = 0 :=
  ⟨rfl, rfl, rfl, rfl⟩

/-- C7: for batch size B ≥ 1 the run's partition (`range(0, total,
batch_size)` slicing, which the orchestrator folds over in list order, one
group fully collected before the next begins) consists of exactly
⌈N / B⌉ consecutive groups, each of size at most B, whose concatenation is
the original unit sequence in its original order. -/
theorem claim_C7_batch_partition {α : Type _} (B : Nat) (hB : 1 ≤ B) (l : List α) :
    (chunksOf B l).length = (l.length + B - 1) / B ∧
    (∀ c ∈ chunksOf B l, c.length ≤ B) ∧
    (chunksOf B l).flatten = l := by
  refine ⟨chunksOf_length B hB l, ?_, chunksOf_flatten B hB l⟩
  intro c hc
  unfold chunksOf at hc
  rw [if_neg (by omega)] at hc
  exact chunksOfAux_sizes B l.length l c hc

/-- C7 witness: five units with batch size 2 give ⌈5/2⌉ = 3 groups of
sizes at most 2 covering the units in order. -/
theorem claim_C7_witness :
    (1 ≤ 2) ∧
    ((chunksOf 2 ([0, 1, 2, 3, 4] : List Nat)).length
        = (([0, 1, 2, 3, 4] : List Nat).length + 2 - 1) / 2 ∧
      (∀ c ∈ chunksOf 2 ([0, 1, 2, 3, 4] : List Nat), c.length ≤ 2) ∧
      (chunksOf 2 ([0, 1, 2, 3, 4] : List Nat)).flatten = [0, 1, 2, 3, 4]) :=
  ⟨by decide, claim_C7_batch_partition 2 (by decide) [0, 1, 2, 3, 4]⟩

/-! ## Lemmas: numerals -/

theorem natCharsAux_fuel_irrel :
    ∀ (n f g : Nat), n < f → n < g → natCharsAux f n = natCharsAux g n := by
  intro n
  induction n using Nat.strong_induction_on with
  | _ n ih =>
    intro f g hf hg
    cases f with
    | zero => omega
    | succ f0 =>
      cases g with
      | zero => omega
      | succ g0 =>
        by_cases h10 : n < 10
        · simp [natCharsAux, h10]
        · simp only [natCharsAux, if_neg h10]
          have hd : n / 10 < n := Nat.div_lt_self (by omega) (by omega)
          rw [ih (n / 10) hd f0 g0 (by omega) (by omega)]

theorem natChars_lt10 (n : Nat) (h : n < 10) : natChars n = [digitChar n] := by
  unfold natChars natCharsAux
  simp [h]

theorem natChars_eq_div (n : Nat) (h : 10 ≤ n) :
    natChars n = natChars (n / 10) ++ [digitChar (n % 10)] := by
  have hd : n / 10 < n := Nat.div_lt_self (by omega) (by omega)
  unfold natChars
  conv =>
    lhs
    rw [show natCharsAux (n + 1) n
        = natCharsAux n (n / 10) ++ [digitChar (n % 10)] from by
      simp only [natCharsAux, if_neg (by omega : ¬ n < 10)]]
  rw [natCharsAux_fuel_irrel (n / 10) n (n / 10 + 1) (by omega) (by omega)]

theorem digitChar_isDigit (n : Nat) (h : n < 10) : (digitChar n).isDigit = true := by
  interval_cases n <;> decide

theorem digitChar_toNat (n : Nat) (h : n < 10) : (digitChar n).toNat - 48 = n := by
  interval_cases n <;> decide

theorem natChars_all_digits : ∀ (n : Nat), ∀ c ∈ natChars n, c.isDigit = true := by
  intro n
  induction n using Nat.strong_induction_on with
  | _ n ih =>
    intro c hc
    by_cases h10 : n < 10
    · rw [natChars_lt10 n h10] at hc
      simp only [List.mem_singleton] at hc
      rw [hc]
      exact digitChar_isDigit n h10
    · rw [natChars_eq_div n (by omega)] at hc
      rcases List.mem_append.mp hc with h | h
      · exact ih (n / 10) (Nat.div_lt_self (by omega) (by omega)) c h
      · simp only [List.mem_singleton] at h
        rw [h]
        exact digitChar_isDigit (n % 10) (Nat.mod_lt n (by omega))

theorem natChars_ne_nil (n : Nat) : natChars n ≠ [] := by
  by_cases h10 : n < 10
  · rw [natChars_lt10 n h10]; simp
  · rw [natChars_eq_div n (by omega)]; simp

theorem pDigits_append :
    ∀ (ds : PyStr), (∀ c ∈ ds, c.isDigit = true) →
      ∀ (rest : PyStr), headNotDigit rest = true →
        ∀ (acc : Nat),
          pDigits (ds ++ rest) acc
            = (ds.foldl (fun a c => a * 10 + (c.toNat - 48)) acc, rest) := by
  intro ds
  induction ds with
  | nil =>
    intro _ rest hrest acc
    cases rest with
    | nil => rfl
    | cons c r =>
      simp only [headNotDigit, Bool.not_eq_true'] at hrest
      simp [pDigits, hrest]
  | cons d ds ih =>
    intro hds rest hrest acc
    have hd : d.isDigit = true := hds d (List.mem_cons_self d ds)
    simp only [List.cons_append, pDigits, hd, if_pos, List.foldl_cons]
    exact ih (fun c hc => hds c (List.mem_cons_of_mem d hc)) rest hrest _

theorem foldl_digits_natChars :
    ∀ (n : Nat) (acc : Nat),
      (natChars n).foldl (fun a c => a * 10 + (c.toNat - 48)) acc
        = acc * 10 ^ (natChars n).length + n := by
  intro n
  induction n using Nat.strong_induction_on with
  | _ n ih =>
    intro acc
    by_cases h10 : n < 10
    · rw [natChars_lt10 n h10]
      simp only [List.foldl_cons, List.foldl_nil, List.length_singleton, pow_one]
      rw [digitChar_toNat n h10]
    · rw [natChars_eq_div n (by omega)]
      rw [List.foldl_append]
      rw [ih (n / 10) (Nat.div_lt_self (by omega) (by omega)) acc]
      simp only [List.foldl_cons, List.foldl_nil, List.length_append,
        List.length_singleton]
      rw [digitChar_toNat (n % 10) (Nat.mod_lt n (by omega))]
      have hnm : 10 * (n / 10) + n % 10 = n := Nat.div_add_mod n 10
      ring_nf
      omega

theorem pDigits_natChars (n : Nat) (rest : PyStr) (h : headNotDigit rest = true) :
    pDigits (natChars n ++ rest) 0 = (n, rest) := by
  rw [pDigits_append (natChars n) (natChars_all_digits n) rest h 0,
    foldl_digits_natChars]
  simp

/-! ## Lemmas: parser dispatch and scalar values -/

theorem pVal_dispatch_ob (f : Nat) (r : PyStr) : pVal (f + 1) (chOb :: r) = pObjBody f r := rfl

theorem pVal_dispatch_dq (f : Nat) (r : PyStr) :
    pVal (f + 1) (chDq :: r)
      = match pStrBody r [] with
        | some (cs, rest) => some (.str cs, rest)
        | none => none := rfl

theorem pVal_dispatch_minus (f : Nat) (r : PyStr) :
    pVal (f + 1) (Char.ofNat 45 :: r)
      = match r with
        | d :: _ =>
          if d.isDigit then
            match pDigits r 0 with
            | (n, rest) => some (.num (-(n : Int)), rest)
          else none
        | [] => none := rfl

theorem pVal_dispatch_t (f : Nat) (r : PyStr) :
    pVal (f + 1) ('t' :: r)
      = (dropLit ("rue").data r).map (fun rest => (Json.bool true, rest)) := rfl

theorem pVal_dispatch_f (f : Nat) (r : PyStr) :
    pVal (f + 1) ('f' :: r)
      = (dropLit ("alse").data r).map (fun rest => (Json.bool false, rest)) := rfl

theorem pVal_dispatch_n (f : Nat) (r : PyStr) :
    pVal (f + 1) ('n' :: r)
      = (dropLit ("ull").data r).map (fun rest => (Json.null, rest)) := rfl

theorem digit_not_ws (c : Char) (h : c.isDigit = true) : isWsChar c = false := by
  unfold isWsChar
  by_cases h1 : c = ' '
  · rw [h1] at h; exact absurd h (by decide)
  · by_cases h2 : c = Char.ofNat 9
    · rw [h2] at h; exact absurd h (by decide)
    · by_cases h3 : c = chNl
      · rw [h3] at h; exact absurd h (by decide)
      · by_cases h4 : c = Char.ofNat 13
        · rw [h4] at h; exact absurd h (by decide)
        · simp [h1, h2, h3, h4]

theorem skipWs_cons_of_not_ws (c : Char) (r : PyStr) (h : isWsChar c = false) :
    skipWs (c :: r) = c :: r := by
  simp [skipWs, h]

theorem pVal_dispatch_digit (f : Nat) (c : Char) (r : PyStr) (h : c.isDigit = true) :
    pVal (f + 1) (c :: r)
      = (match pDigits (c :: r) 0 with
         | (n, rest) => some (Json.num (n : Int), rest)) := by
  have hne : ∀ x : Char, x.isDigit = false → ¬ c = x := by
    intro x hx he
    rw [he] at h; rw [h] at hx; cases hx
  simp only [pVal]
  rw [skipWs_cons_of_not_ws c r (digit_not_ws c h)]
  dsimp only
  rw [if_neg (hne chOb (by decide)), if_neg (hne (Char.ofNat 91) (by decide)),
    if_neg (hne chDq (by decide)), if_neg (hne (Char.ofNat 45) (by decide)),
    if_pos h]

theorem dropLit_append (l rest : PyStr) : dropLit l (l ++ rest) = some rest := by
  unfold dropLit
  rw [if_pos]
  · simp
  · exact List.isPrefixOf_iff_prefix.mpr (List.prefix_append l rest)

theorem pVal_true (f : Nat) (rest : PyStr) :
    pVal (f + 1) (serJson (.bool true) ++ rest) = some (.bool true, rest) := by
  show pVal (f + 1) ('t' :: (("rue").data ++ rest)) = some (.bool true, rest)
  rw [pVal_dispatch_t, dropLit_append]
  rfl

theorem pVal_false (f : Nat) (rest : PyStr) :
    pVal (f + 1) (serJson (.bool false) ++ rest) = some (.bool false, rest) := by
  show pVal (f + 1) ('f' :: (("alse").data ++ rest)) = some (.bool false, rest)
  rw [pVal_dispatch_f, dropLit_append]
  rfl

theorem escJsonStr_safe (s : PyStr) (h : SafeStr s) : escJsonStr s = s := by
  induction s with
  | nil => rfl
  | cons c cs ih =>
    have hc := h c (List.mem_cons_self c cs)
    simp only [escJsonStr, escJsonChar, if_neg hc.1, if_neg hc.2, List.singleton_append]
    rw [ih (fun x hx => h x (List.mem_cons_of_mem c hx))]

theorem pStrBody_dq (rest acc : PyStr) :
    pStrBody (chDq :: rest) acc = some (acc.reverse, rest) := by
  rw [pStrBody.eq_def]
  dsimp only
  rw [if_pos rfl]

theorem pStrBody_cons_other (c : Char) (r acc : PyStr) (h1 : ¬ c = chDq) (h2 : ¬ c = chBs) :
    pStrBody (c :: r) acc = pStrBody r (c :: acc) := by
  rw [pStrBody.eq_def]
  dsimp only
  rw [if_neg h1, if_neg h2]

theorem pStrBody_safe :
    ∀ (s : PyStr), SafeStr s →
      ∀ (acc rest : PyStr), pStrBody (s ++ chDq :: rest) acc = some (acc.reverse ++ s, rest) := by
  intro s
  induction s with
  | nil =>
    intro _ acc rest
    rw [List.nil_append, pStrBody_dq]
    simp
  | cons c cs ih =>
    intro hs acc rest
    have hc := hs c (List.mem_cons_self c cs)
    rw [List.cons_append, pStrBody_cons_other c _ acc hc.1 hc.2]
    rw [ih (fun x hx => hs x (List.mem_cons_of_mem c hx)) (c :: acc) rest]
    simp

theorem pVal_str (f : Nat) (s rest : PyStr) (hs : SafeStr s) :
    pVal (f + 1) (serJson (.str s) ++ rest) = some (.str s, rest) := by
  have hshape : serJson (.str s) ++ rest = chDq :: (s ++ chDq :: rest) := by
    show (chDq :: escJsonStr s ++ [chDq]) ++ rest = chDq :: (s ++ chDq :: rest)
    rw [escJsonStr_safe s hs]
    simp
  rw [hshape, pVal_dispatch_dq, pStrBody_safe s hs [] rest]
  simp

theorem pVal_num (f : Nat) (n : Int) (rest : PyStr) (h : headNotDigit rest = true) :
    pVal (f + 1) (serJson (.num n) ++ rest) = some (.num n, rest) := by
  by_cases hneg : n < 0
  · have hshape : serJson (.num n) ++ rest
        = Char.ofNat 45 :: (natChars n.natAbs ++ rest) := by
      show intChars n ++ rest = Char.ofNat 45 :: (natChars n.natAbs ++ rest)
      unfold intChars
      rw [if_pos hneg]
      simp
    rw [hshape, pVal_dispatch_minus]
    obtain ⟨c, cs, hcs⟩ : ∃ c cs, natChars n.natAbs = c :: cs := by
      cases hn : natChars n.natAbs with
      | nil => exact absurd hn (natChars_ne_nil _)
      | cons c cs => exact ⟨c, cs, rfl⟩
    have hcd : c.isDigit = true :=
      natChars_all_digits n.natAbs c (by rw [hcs]; exact List.mem_cons_self c cs)
    rw [hcs, List.cons_append]
    dsimp only
    rw [if_pos hcd]
    have hrw : c :: (cs ++ rest) = natChars n.natAbs ++ rest := by
      rw [hcs, List.cons_append]
    rw [hrw, pDigits_natChars n.natAbs rest h]
    have hval : -((n.natAbs : Nat) : Int) = n := by omega
    dsimp only
    rw [hval]
  · have hshape : serJson (.num n) ++ rest = natChars n.toNat ++ rest := by
      show intChars n ++ rest = natChars n.toNat ++ rest
      unfold intChars
      rw [if_neg hneg]
    obtain ⟨c, cs, hcs⟩ : ∃ c cs, natChars n.toNat = c :: cs := by
      cases hn : natChars n.toNat with
      | nil => exact absurd hn (natChars_ne_nil _)
      | cons c cs => exact ⟨c, cs, rfl⟩
    have hcd : c.isDigit = true :=
      natChars_all_digits n.toNat c (by rw [hcs]; exact List.mem_cons_self c cs)
    rw [hshape, hcs, List.cons_append, pVal_dispatch_digit f c (cs ++ rest) hcd]
    have hrw : c :: (cs ++ rest) = natChars n.toNat ++ rest := by
      rw [hcs, List.cons_append]
    rw [hrw, pDigits_natChars n.toNat rest h]
    have hval : ((n.toNat : Nat) : Int) = n := by omega
    dsimp only
    rw [hval]

/-! ## Lemmas: object parsing -/

theorem pObjBody_dq (f : Nat) (r : PyStr) :
    pObjBody (f + 1) (chDq :: r) = pMembers f (chDq :: r) [] := rfl

theorem pObjBody_cb (f : Nat) (r : PyStr) :
    pObjBody (f + 1) (chCb :: r) = some (.obj [], r) := rfl

theorem pMembers_dq (f : Nat) (R : PyStr) (acc : List (PyStr × Json)) :
    pMembers (f + 1) (chDq :: R) acc
      = match pStrBody R [] with
        | some (key, rest1) =>
          match skipWs rest1 with
          | c2 :: rest2 =>
            if c2 = ':' then
              match pVal f rest2 with
              | some (v, rest3) =>
                match skipWs rest3 with
                | c3 :: rest4 =>
                  if c3 = ',' then pMembers f rest4 (dictInsert acc key v)
                  else if c3 = chCb then some (.obj (dictInsert acc key v), rest4)
                  else none
                | [] => none
              | none => none
            else none
          | [] => none
        | none => none := rfl

theorem pVal_strip_ws (f : Nat) (s : PyStr) : pVal f (' ' :: s) = pVal f s := by
  cases f with
  | zero => rfl
  | succ g => rfl

theorem pMembers_strip_ws (f : Nat) (s : PyStr) (acc : List (PyStr × Json)) :
    pMembers f (' ' :: s) acc = pMembers f s acc := by
  cases f with
  | zero => rfl
  | succ g => rfl

theorem serMem_append (k : PyStr) (v : Json) (T : PyStr) :
    serMem (k, v) ++ T
      = chDq :: (escJsonStr k ++ (chDq :: (':' :: (' ' :: (serJson v ++ T))))) := by
  show (chDq :: escJsonStr k ++ (chDq :: ':' :: ' ' :: serJson v)) ++ T = _
  simp [List.append_assoc]

theorem pObjBody_members (f : Nat) (k : PyStr) (v : Json) (T : PyStr) :
    pObjBody (f + 1) (serMem (k, v) ++ T) = pMembers f (serMem (k, v) ++ T) [] := by
  rw [serMem_append, pObjBody_dq, ← serMem_append]

/-- parsing one serialized member: the key string, the colon, the value
(by the supplied value-parse fact), then the separator dispatch -/
theorem pMembers_keyval (f : Nat) (k : PyStr) (hk : SafeStr k) (v : Json)
    (acc : List (PyStr × Json)) (T : PyStr)
    (hv : pVal f (serJson v ++ T) = some (v, T)) :
    pMembers (f + 1) (serMem (k, v) ++ T) acc
      = match skipWs T with
        | c3 :: rest4 =>
          if c3 = ',' then pMembers f rest4 (dictInsert acc k v)
          else if c3 = chCb then some (.obj (dictInsert acc k v), rest4)
          else none
        | [] => none := by
  have hf1 : 1 ≤ f := by
    cases f with
    | zero => rw [show pVal 0 (serJson v ++ T) = none from rfl] at hv; cases hv
    | succ g => omega
  rw [serMem_append, pMembers_dq, escJsonStr_safe k hk, pStrBody_safe k hk [] _]
  dsimp only
  rw [show skipWs (':' :: (' ' :: (serJson v ++ T))) = ':' :: (' ' :: (serJson v ++ T)) from rfl]
  dsimp only
  rw [if_pos rfl, pVal_strip_ws, hv]
  dsimp only
  simp only [List.reverse_nil, List.nil_append]

theorem dictInsert_three (k1 k2 k3 : PyStr) (v1 v2 v3 : Json)
    (h12 : ¬ k1 = k2) (h13 : ¬ k1 = k3) (h23 : ¬ k2 = k3) :
    dictInsert (dictInsert (dictInsert [] k1 v1) k2 v2) k3 v3
      = [(k1, v1), (k2, v2), (k3, v3)] := by
  simp [dictInsert, h12, h13, h23]

theorem entry_serJson_append (b : Bool) (c : Int) (d : PyStr) (rest : PyStr) :
    serJson (entryJson b c d) ++ rest
      = chOb :: (serMem (("detected").data, Json.bool b)
          ++ (',' :: (' ' :: (serMem (("confidence").data, Json.num c)
          ++ (',' :: (' ' :: (serMem (("description").data, Json.str d)
          ++ (chCb :: rest)))))))) := by
  show (chOb :: serMem _ ++ serMemsTail _ ++ [chCb]) ++ rest = _
  simp [serMemsTail, List.append_assoc]

theorem skipWs_comma (s : PyStr) : skipWs (',' :: s) = ',' :: s := rfl

theorem skipWs_cb (s : PyStr) : skipWs (chCb :: s) = chCb :: s := rfl

theorem headNotDigit_comma (s : PyStr) : headNotDigit (',' :: s) = true := rfl

theorem headNotDigit_cb (s : PyStr) : headNotDigit (chCb :: s) = true := rfl

theorem pVal_bool (f : Nat) (b : Bool) (rest : PyStr) :
    pVal (f + 1) (serJson (.bool b) ++ rest) = some (.bool b, rest) := by
  cases b
  · exact pVal_false f rest
  · exact pVal_true f rest

theorem pMembers_keyval_more (f : Nat) (k : PyStr) (hk : SafeStr k) (v : Json)
    (acc : List (PyStr × Json)) (more : PyStr)
    (hv : pVal f (serJson v ++ (',' :: (' ' :: more))) = some (v, ',' :: (' ' :: more))) :
    pMembers (f + 1) (serMem (k, v) ++ (',' :: (' ' :: more))) acc
      = pMembers f more (dictInsert acc k v) := by
  rw [pMembers_keyval f k hk v acc _ hv, skipWs_comma]
  dsimp only
  rw [if_pos rfl, pMembers_strip_ws]

theorem pMembers_keyval_last (f : Nat) (k : PyStr) (hk : SafeStr k) (v : Json)
    (acc : List (PyStr × Json)) (rest : PyStr)
    (hv : pVal f (serJson v ++ (chCb :: rest)) = some (v, chCb :: rest)) :
    pMembers (f + 1) (serMem (k, v) ++ (chCb :: rest)) acc
      = some (.obj (dictInsert acc k v), rest) := by
  rw [pMembers_keyval f k hk v acc _ hv, skipWs_cb]
  dsimp only
  rw [if_neg (by decide : ¬ chCb = ','), if_pos rfl]

theorem pVal_entry (b : Bool) (c : Int) (d : PyStr) (hd : SafeStr d) :
    ∀ (f : Nat), 8 ≤ f → ∀ (rest : PyStr),
      pVal f (serJson (entryJson b c d) ++ rest) = some (entryJson b c d, rest) := by
  intro f hf rest
  obtain ⟨g, rfl⟩ : ∃ g, f = g + 8 := ⟨f - 8, by omega⟩
  rw [entry_serJson_append]
  rw [show g + 8 = (g + 7) + 1 from rfl, pVal_dispatch_ob]
  rw [show g + 7 = (g + 6) + 1 from rfl, pObjBody_members]
  rw [show g + 6 = (g + 5) + 1 from rfl,
    pMembers_keyval_more (g + 5) (("detected").data) (by decide) (Json.bool b) []
      _ (pVal_bool (g + 4) b _)]
  rw [show g + 5 = (g + 4) + 1 from rfl,
    pMembers_keyval_more (g + 4) (("confidence").data) (by decide) (Json.num c)
      _ _ (pVal_num (g + 3) c _ (headNotDigit_comma _))]
  rw [show g + 4 = (g + 3) + 1 from rfl,
    pMembers_keyval_last (g + 3) (("description").data) (by decide) (Json.str d)
      _ _ (pVal_str (g + 2) d _ hd)]
  rw [dictInsert_three _ _ _ _ _ _ (by decide) (by decide) (by decide)]
  rfl

/-! ## Lemmas: full per-category object round trip -/

theorem pVal_entryToJson (e : CatEntry) (hd : SafeStr e.description) :
    ∀ (f : Nat), 8 ≤ f → ∀ (rest : PyStr),
      pVal f (serJson (entryToJson e) ++ rest) = some (entryToJson e, rest) :=
  pVal_entry e.detected e.confidence e.description hd

theorem serMemsTail_cons_append (x : PyStr × Json) (l : List (PyStr × Json)) (R : PyStr) :
    serMemsTail (x :: l) ++ R = ',' :: (' ' :: (serMem x ++ (serMemsTail l ++ R))) := by
  show (',' :: ' ' :: serMem x ++ serMemsTail l) ++ R = _
  simp [List.append_assoc]

theorem pMembers_entries :
    ∀ (tl : PerCategory) (k : PyStr) (e : CatEntry) (f : Nat)
      (acc : List (PyStr × Json)) (rest : PyStr),
      SafeStr k → SafeStr e.description →
      (∀ kv ∈ tl, SafeStr kv.1 ∧ SafeStr kv.2.description) →
      k ∉ acc.map Prod.fst → (∀ kv ∈ tl, kv.1 ∉ acc.map Prod.fst) →
      k ∉ tl.map Prod.fst → (tl.map Prod.fst).Nodup →
      tl.length + 10 ≤ f →
      pMembers f
          (serMem (k, entryToJson e)
            ++ (serMemsTail (tl.map (fun kv => (kv.1, entryToJson kv.2)))
                ++ (chCb :: rest))) acc
        = some (.obj (acc ++ (k, entryToJson e)
            :: tl.map (fun kv => (kv.1, entryToJson kv.2))), rest) := by
  intro tl
  induction tl with
  | nil =>
    intro k e f acc rest hk hd _ hkacc _ _ _ hf
    obtain ⟨g, rfl⟩ : ∃ g, f = g + 1 := ⟨f - 1, by omega⟩
    simp only [List.map_nil, serMemsTail, List.nil_append]
    rw [pMembers_keyval_last g k hk (entryToJson e) acc rest
      (pVal_entryToJson e hd g (by omega) (chCb :: rest))]
    rw [dictInsert_fresh acc k (entryToJson e) hkacc]
  | cons kv2 tl2 ih =>
    intro k e f acc rest hk hd htl hkacc htlacc hknotin hnd hf
    obtain ⟨g, rfl⟩ : ∃ g, f = g + 1 := ⟨f - 1, by omega⟩
    simp only [List.map_cons] at hnd ⊢
    rw [serMemsTail_cons_append]
    rw [pMembers_keyval_more g k hk (entryToJson e) acc _
      (pVal_entryToJson e hd g (by simp at hf; omega) _)]
    rw [dictInsert_fresh acc k (entryToJson e) hkacc]
    have hkv2 := htl kv2 (List.mem_cons_self kv2 tl2)
    have hnd2 := List.nodup_cons.mp hnd
    rw [ih kv2.1 kv2.2 g (acc ++ [(k, entryToJson e)]) rest hkv2.1 hkv2.2
      (fun kv hkv => htl kv (List.mem_cons_of_mem kv2 hkv))
      (by
        simp only [List.map_append, List.mem_append, not_or]
        refine ⟨htlacc kv2 (List.mem_cons_self kv2 tl2), ?_⟩
        simp only [List.map_cons, List.map_nil, List.mem_singleton]
        intro heq
        exact hknotin (by rw [← heq]; exact List.mem_cons_self kv2.1 _))
      (fun kv hkv => by
        simp only [List.map_append, List.mem_append, not_or]
        refine ⟨htlacc kv (List.mem_cons_of_mem kv2 hkv), ?_⟩
        simp only [List.map_cons, List.map_nil, List.mem_singleton]
        intro heq
        exact hknotin (by
          rw [← heq]
          exact List.mem_cons_of_mem kv2.1 (List.mem_map_of_mem Prod.fst hkv)))
      hnd2.1 hnd2.2 (by simp at hf ⊢; omega)]
    simp

theorem obj_serJson_append (x : PyStr × Json) (l : List (PyStr × Json)) (rest : PyStr) :
    serJson (.obj (x :: l)) ++ rest
      = chOb :: (serMem x ++ (serMemsTail l ++ (chCb :: rest))) := by
  show (chOb :: serMem x ++ serMemsTail l ++ [chCb]) ++ rest = _
  simp [List.append_assoc]

theorem pVal_perCatJson :
    ∀ (m : PerCategory), PerCatWf m →
      ∀ (f : Nat), m.length + 12 ≤ f → ∀ (rest : PyStr),
        pVal f (serJson (perCategoryJson m) ++ rest) = some (perCategoryJson m, rest) := by
  intro m hwf f hf rest
  cases m with
  | nil =>
    obtain ⟨g, rfl⟩ : ∃ g, f = g + 2 := ⟨f - 2, by omega⟩
    show pVal (g + 2) ((chOb :: (chCb :: [])) ++ rest) = some (.obj [], rest)
    rw [List.cons_append, List.cons_append, List.nil_append]
    rw [show g + 2 = (g + 1) + 1 from rfl, pVal_dispatch_ob, pObjBody_cb]
  | cons kv tl =>
    obtain ⟨g, rfl⟩ : ∃ g, f = g + 2 := ⟨f - 2, by omega⟩
    obtain ⟨hnd, hsafe⟩ := hwf
    simp only [List.map_cons, List.nodup_cons] at hnd
    have hkv := hsafe kv (List.mem_cons_self kv tl)
    show pVal (g + 2) (serJson (.obj ((kv.1, entryToJson kv.2)
        :: tl.map (fun kv => (kv.1, entryToJson kv.2)))) ++ rest) = _
    rw [obj_serJson_append]
    rw [show g + 2 = (g + 1) + 1 from rfl, pVal_dispatch_ob]
    rw [pObjBody_members]
    rw [pMembers_entries tl kv.1 kv.2 g [] rest hkv.1 hkv.2
      (fun x hx => hsafe x (List.mem_cons_of_mem kv hx))
      (by simp) (fun x _ => by simp)
      hnd.1 hnd.2
      (by simp only [List.length_cons] at hf; omega)]
    simp [perCategoryJson]

theorem serMem_len (k : PyStr) (v : Json) : 4 ≤ (serMem (k, v)).length := by
  show 4 ≤ (chDq :: escJsonStr k ++ (chDq :: ':' :: ' ' :: serJson v)).length
  simp only [List.length_cons, List.length_append]
  omega

theorem serMemsTail_len :
    ∀ (l : List (PyStr × Json)), l.length ≤ (serMemsTail l).length := by
  intro l
  induction l with
  | nil => simp [serMemsTail]
  | cons x xs ih =>
    show xs.length + 1 ≤ (',' :: ' ' :: serMem x ++ serMemsTail xs).length
    simp only [List.length_cons, List.length_append]
    omega

theorem serJson_perCat_len (m : PerCategory) :
    m.length + 2 ≤ (serJson (perCategoryJson m)).length := by
  cases m with
  | nil => decide
  | cons kv tl =>
    show _ ≤ (chOb :: serMem (kv.1, entryToJson kv.2)
        ++ serMemsTail (tl.map (fun kv => (kv.1, entryToJson kv.2))) ++ [chCb]).length
    have h1 := serMem_len kv.1 (entryToJson kv.2)
    have h2 := serMemsTail_len (tl.map (fun kv => (kv.1, entryToJson kv.2)))
    simp only [List.length_map] at h2
    simp only [List.length_cons, List.length_append, List.length_singleton]
    omega

theorem jsonParse_perCatJson (m : PerCategory) (hwf : PerCatWf m) :
    jsonParse (serJson (perCategoryJson m)) = some (perCategoryJson m) := by
  unfold jsonParse
  have hlen := serJson_perCat_len m
  have h := pVal_perCatJson m hwf (4 * (serJson (perCategoryJson m)).length + 8)
    (by omega) []
  rw [List.append_nil] at h
  rw [h]
  rfl

/-! ## Lemmas: locating embedded JSON (first brace, last brace, slice) -/

theorem firstIdx_append_not_mem (c : Char) :
    ∀ (p : PyStr), c ∉ p → ∀ (s : PyStr),
      firstIdx (p ++ s) c = (firstIdx s c).map (· + p.length) := by
  intro p
  induction p with
  | nil =>
    intro _ s
    simp only [List.nil_append, List.length_nil]
    cases firstIdx s c <;> simp
  | cons x xs ih =>
    intro h s
    simp only [List.mem_cons, not_or] at h
    have hne : ¬ x = c := fun he => h.1 he.symm
    simp only [List.cons_append, firstIdx, if_neg hne, List.append_eq]
    rw [ih h.2 s]
    cases firstIdx s c <;> simp <;> omega

theorem firstIdx_cons_self (c : Char) (t : PyStr) : firstIdx (c :: t) c = some 0 := by
  simp [firstIdx]

theorem pySlice_middle (p mid q : PyStr) :
    pySlice (p ++ (mid ++ q)) p.length (p.length + mid.length) = mid := by
  unfold pySlice
  rw [List.drop_left, Nat.add_sub_cancel_left, List.take_left]

theorem serJson_perCat_shape (m : PerCategory) :
    ∃ mid, serJson (perCategoryJson m) = chOb :: mid ++ [chCb] := by
  cases m with
  | nil => exact ⟨[], rfl⟩
  | cons kv tl =>
    refine ⟨serMem (kv.1, entryToJson kv.2)
      ++ serMemsTail (tl.map (fun kv => (kv.1, entryToJson kv.2))), ?_⟩
    show chOb :: serMem _ ++ serMemsTail _ ++ [chCb] = _
    simp [List.append_assoc]

theorem decodeSub_embedded (m : PerCategory) (hwf : PerCatWf m) (p q : PyStr)
    (hp : chOb ∉ p) (hq : chCb ∉ q) :
    decodeSub (p ++ (serJson (perCategoryJson m) ++ q)) = some (perCategoryJson m) := by
  obtain ⟨mid, hser⟩ := serJson_perCat_shape m
  have hserlen : (serJson (perCategoryJson m)).length = mid.length + 2 := by
    rw [hser]; simp
  have hfirst : firstIdx (p ++ (serJson (perCategoryJson m) ++ q)) chOb = some p.length := by
    rw [firstIdx_append_not_mem chOb p hp, hser, List.cons_append]
    simp [firstIdx]
  have hqrev : chCb ∉ q.reverse := fun hmem => hq (List.mem_reverse.mp hmem)
  have hlast : lastIdx (p ++ (serJson (perCategoryJson m) ++ q)) chCb
      = some (p.length + mid.length + 1) := by
    unfold lastIdx
    have hrev : (p ++ (serJson (perCategoryJson m) ++ q)).reverse
        = q.reverse ++ (chCb :: (mid.reverse ++ (chOb :: p.reverse))) := by
      rw [hser]
      simp [List.append_assoc]
    rw [hrev, firstIdx_append_not_mem chCb q.reverse hqrev]
    simp only [firstIdx, if_pos rfl, if_true, Option.map_some', Nat.zero_add,
      List.length_append, List.length_reverse, hserlen, Option.some.injEq]
    omega
  unfold decodeSub
  rw [hlast]
  dsimp only
  rw [hfirst]
  dsimp only
  have harg : p.length + mid.length + 1 + 1 = p.length + (serJson (perCategoryJson m)).length := by
    omega
  rw [harg, pySlice_middle p (serJson (perCategoryJson m)) q]
  exact jsonParse_perCatJson m hwf

/-! ## Claim C5 -/

/-- C5: for every well-formed per-category response object J (the data
model's record shape: pairwise-distinct keys and escape-free strings,
carrying in particular the four canonical keys `for_sale_sign`,
`solar_panels`, `human_presence`, `potential_damage`) and all prose
strings p (containing no opening brace) and q (containing no closing
brace), parsing p ++ dumps(J) ++ q — via the substring from the first
opening to the last closing brace — recovers J itself, hence the value of
every key of J, the four canonical keys included, unchanged. -/
theorem claim_C5_roundtrip (m : PerCategory) (cats : List Category) (p q : PyStr)
    (hwf : PerCatWf m) (hp : chOb ∉ p) (hq : chCb ∉ q) :
    parseResponse cats (p ++ (serJson (perCategoryJson m) ++ q)) = perCategoryJson m ∧
    (∀ k : PyStr,
      jObjGet (parseResponse cats (p ++ (serJson (perCategoryJson m) ++ q))) k
        = dictGet (m.map (fun kv => (kv.1, entryToJson kv.2))) k) := by
  have hd := decodeSub_embedded m hwf p q hp hq
  have hb : (p ++ (serJson (perCategoryJson m) ++ q)).contains chOb = true := by
    obtain ⟨mid, hser⟩ := serJson_perCat_shape m
    have hmem : chOb ∈ p ++ (serJson (perCategoryJson m) ++ q) := by
      rw [hser]; simp
    simpa using hmem
  have h1 := parseResponse_of_decode_success cats _ _ hb hd
  exact ⟨h1, fun k => by rw [h1]; rfl⟩

/-- C5 witness: a concrete four-category response embedded in prose is
recovered exactly. -/
theorem claim_C5_witness :
    PerCatWf perCatW ∧
    chOb ∉ ("Sure! Here is the JSON you asked for: ").data ∧
    chCb ∉ (" I hope that helps.").data ∧
    (parseResponse defaultCategories
        (("Sure! Here is the JSON you asked for: ").data
          ++ (serJson (perCategoryJson perCatW) ++ (" I hope that helps.").data))
        = perCategoryJson perCatW ∧
      (∀ k : PyStr,
        jObjGet
            (parseResponse defaultCategories
              (("Sure! Here is the JSON you asked for: ").data
                ++ (serJson (perCategoryJson perCatW) ++ (" I hope that helps.").data))) k
          = dictGet (perCatW.map (fun kv => (kv.1, entryToJson kv.2))) k)) :=
  ⟨by decide, by decide, by decide,
    claim_C5_roundtrip perCatW defaultCategories
      (("Sure! Here is the JSON you asked for: ").data)
      ((" I hope that helps.").data) (by decide) (by decide) (by decide)⟩

/-! ## Lemmas: the serializer output of well-formed mappings has no backslash -/

theorem chBs_not_mem_natChars (n : Nat) : chBs ∉ natChars n := by
  intro hmem
  exact absurd (natChars_all_digits n chBs hmem) (by decide)

theorem chBs_not_mem_intChars (n : Int) : chBs ∉ intChars n := by
  unfold intChars
  by_cases h : n < 0
  · rw [if_pos h]
    intro hmem
    rcases List.mem_cons.mp hmem with h1 | h1
    · exact absurd h1 (by decide)
    · exact chBs_not_mem_natChars _ h1
  · rw [if_neg h]
    exact chBs_not_mem_natChars _

theorem chBs_not_mem_serJson_bool (b : Bool) : chBs ∉ serJson (.bool b) := by
  cases b <;> decide

theorem chBs_not_mem_serJson_str (s : PyStr) (hs : SafeStr s) :
    chBs ∉ serJson (.str s) := by
  show chBs ∉ chDq :: escJsonStr s ++ [chDq]
  rw [escJsonStr_safe s hs]
  intro hmem
  rcases List.mem_cons.mp hmem with h | h
  · exact absurd h (by decide)
  · rcases List.mem_append.mp h with h | h
    · exact (hs chBs h).2 rfl
    · rw [List.mem_singleton] at h
      exact absurd h (by decide)

theorem chBs_not_mem_serJson_entry (b : Bool) (c : Int) (d : PyStr) (hd : SafeStr d) :
    chBs ∉ serJson (entryJson b c d) := by
  rw [show serJson (entryJson b c d) = serJson (entryJson b c d) ++ [] from
    (List.append_nil _).symm]
  rw [entry_serJson_append, serMem_append, serMem_append, serMem_append]
  simp only [List.mem_cons, List.mem_append, not_or]
  repeat' apply And.intro
  all_goals first
    | decide
    | exact chBs_not_mem_serJson_bool b
    | exact chBs_not_mem_intChars c
    | exact chBs_not_mem_serJson_str d hd

theorem chBs_not_mem_serMem (k : PyStr) (v : Json) (hk : SafeStr k)
    (hv : chBs ∉ serJson v) : chBs ∉ serMem (k, v) := by
  rw [show serMem (k, v) = serMem (k, v) ++ [] from (List.append_nil _).symm,
    serMem_append, List.append_nil]
  rw [escJsonStr_safe k hk]
  intro hmem
  rcases List.mem_cons.mp hmem with h | h
  · exact absurd h (by decide)
  · rcases List.mem_append.mp h with h | h
    · exact (hk chBs h).2 rfl
    · rcases List.mem_cons.mp h with h | h
      · exact absurd h (by decide)
      · rcases List.mem_cons.mp h with h | h
        · exact absurd h (by decide)
        · rcases List.mem_cons.mp h with h | h
          · exact absurd h (by decide)
          · exact hv h

theorem chBs_not_mem_serMemsTail :
    ∀ (tl : PerCategory), (∀ kv ∈ tl, SafeStr kv.1 ∧ SafeStr kv.2.description) →
      chBs ∉ serMemsTail (tl.map (fun kv => (kv.1, entryToJson kv.2))) := by
  intro tl
  induction tl with
  | nil => intro _; simp [serMemsTail]
  | cons kv tl2 ih =>
    intro hsafe
    have hkv := hsafe kv (List.mem_cons_self kv tl2)
    simp only [List.map_cons, serMemsTail]
    intro hmem
    rcases List.mem_cons.mp hmem with h | h
    · exact absurd h (by decide)
    · rcases List.mem_cons.mp h with h | h
      · exact absurd h (by decide)
      · rcases List.mem_append.mp h with h | h
        · exact chBs_not_mem_serMem kv.1 (entryToJson kv.2) hkv.1
            (chBs_not_mem_serJson_entry kv.2.detected kv.2.confidence
              kv.2.description hkv.2) h
        · exact ih (fun x hx => hsafe x (List.mem_cons_of_mem kv hx)) h

theorem chBs_not_mem_serJson_perCat (m : PerCategory) (hwf : PerCatWf m) :
    chBs ∉ serJson (perCategoryJson m) := by
  obtain ⟨_, hsafe⟩ := hwf
  cases m with
  | nil => decide
  | cons kv tl =>
    have hkv := hsafe kv (List.mem_cons_self kv tl)
    show chBs ∉ chOb :: serMem (kv.1, entryToJson kv.2)
        ++ serMemsTail (tl.map (fun kv => (kv.1, entryToJson kv.2))) ++ [chCb]
    intro hmem
    rcases List.mem_cons.mp hmem with h | h
    · exact absurd h (by decide)
    · rcases List.mem_append.mp h with h | h
      · rcases List.mem_append.mp h with h | h
        · exact chBs_not_mem_serMem kv.1 (entryToJson kv.2) hkv.1
            (chBs_not_mem_serJson_entry kv.2.detected kv.2.confidence
              kv.2.description hkv.2) h
        · exact chBs_not_mem_serMemsTail tl
            (fun x hx => hsafe x (List.mem_cons_of_mem kv hx)) h
      · rw [List.mem_singleton] at h
        exact absurd h (by decide)

/-! ## Claim C8 -/

/-- C8 (amended): for every per-category mapping handed to
`save_analysis_results`, the row written has the four canonical
categories' detected/confidence in their fixed columns, substituting
`detected = false`, `confidence = 0` whenever the canonical key is absent
from the mapping (unconditionally: these values never pass through string
escaping).  The METADATA field stores the complete mapping verbatim (its
stored text parses back to exactly the full mapping, custom categories
included) whenever the mapping is well-formed with escape-free strings,
and the stored FULL_ANALYSIS_TEXT is the first 500 characters of the raw
response whenever those characters contain no backslash — in both cases
because the quote-only SQL-literal escaping then transports the text
exactly.  Outside those conditions the transport corrupts the stored
text: `json.dumps` emits backslash escapes (e.g. for a double quote in a
description) that the save path, which doubles only single quotes, does
not protect — refuting the claim as universally stated
(`claim_C8_counterexample`). -/
theorem claim_C8_save_results (fileName imageName modelName : PyStr) (page : Nat)
    (m : PerCategory) (fullText : PyStr) :
    (((pcGet m (("for_sale_sign").data) = none →
        (saveAnalysisResults fileName imageName modelName page m fullText).forSaleSignDetected
            = false ∧
          (saveAnalysisResults fileName imageName modelName page m fullText).forSaleSignConfidence
            = 0) ∧
      ∀ e, pcGet m (("for_sale_sign").data) = some e →
        (saveAnalysisResults fileName imageName modelName page m fullText).forSaleSignDetected
            = e.detected ∧
          (saveAnalysisResults fileName imageName modelName page m fullText).forSaleSignConfidence
            = e.confidence) ∧
    ((pcGet m (("solar_panels").data) = none →
        (saveAnalysisResults fileName imageName modelName page m fullText).solarPanelDetected
            = false ∧
          (saveAnalysisResults fileName imageName modelName page m fullText).solarPanelConfidence
            = 0) ∧
      ∀ e, pcGet m (("solar_panels").data) = some e →
        (saveAnalysisResults fileName imageName modelName page m fullText).solarPanelDetected
            = e.detected ∧
          (saveAnalysisResults fileName imageName modelName page m fullText).solarPanelConfidence
            = e.confidence) ∧
    ((pcGet m (("human_presence").data) = none →
        (saveAnalysisResults fileName imageName modelName page m fullText).humanPresenceDetected
            = false ∧
          (saveAnalysisResults fileName imageName modelName page m fullText).humanPresenceConfidence
            = 0) ∧
      ∀ e, pcGet m (("human_presence").data) = some e →
        (saveAnalysisResults fileName imageName modelName page m fullText).humanPresenceDetected
            = e.detected ∧
          (saveAnalysisResults fileName imageName modelName page m fullText).humanPresenceConfidence
            = e.confidence) ∧
    ((pcGet m (("potential_damage").data) = none →
        (saveAnalysisResults fileName imageName modelName page m fullText).potentialDamageDetected
            = false ∧
          (saveAnalysisResults fileName imageName modelName page m fullText).potentialDamageConfidence
            = 0) ∧
      ∀ e, pcGet m (("potential_damage").data) = some e →
        (saveAnalysisResults fileName imageName modelName page m fullText).potentialDamageDetected
            = e.detected ∧
          (saveAnalysisResults fileName imageName modelName page m fullText).potentialDamageConfidence
            = e.confidence)) ∧
    (PerCatWf m →
      jsonParse (saveAnalysisResults fileName imageName modelName page m fullText).metadataText
        = some (perCategoryJson m)) ∧
    (chBs ∉ fullText.take 500 →
      (saveAnalysisResults fileName imageName modelName page m fullText).fullAnalysisText
        = fullText.take 500) := by
  refine ⟨⟨⟨?_, ?_⟩, ⟨?_, ?_⟩, ⟨?_, ?_⟩, ⟨?_, ?_⟩⟩, ?_, ?_⟩
  · intro h; unfold saveAnalysisResults; rw [h]; exact ⟨rfl, rfl⟩
  · intro e h; unfold saveAnalysisResults; rw [h]; exact ⟨rfl, rfl⟩
  · intro h; unfold saveAnalysisResults; rw [h]; exact ⟨rfl, rfl⟩
  · intro e h; unfold saveAnalysisResults; rw [h]; exact ⟨rfl, rfl⟩
  · intro h; unfold saveAnalysisResults; rw [h]; exact ⟨rfl, rfl⟩
  · intro e h; unfold saveAnalysisResults; rw [h]; exact ⟨rfl, rfl⟩
  · intro h; unfold saveAnalysisResults; rw [h]; exact ⟨rfl, rfl⟩
  · intro e h; unfold saveAnalysisResults; rw [h]; exact ⟨rfl, rfl⟩
  · intro hwf
    show jsonParse (sqlLiteralValue (escSq (serJson (perCategoryJson m))))
        = some (perCategoryJson m)
    rw [sqlLiteralValue_escSq _ (chBs_not_mem_serJson_perCat m hwf)]
    exact jsonParse_perCatJson m hwf
  · intro hft
    show sqlLiteralValue (escSq (fullText.take 500)) = fullText.take 500
    exact sqlLiteralValue_escSq _ hft

/-- C8 witness: the amended claim applied to a concrete save with a custom
category present, the canonical `for_sale_sign` key absent, a well-formed
mapping and a backslash-free response. -/
theorem claim_C8_witness :
    PerCatWf perCatW8 ∧ chBs ∉ ("analysis raw response").data.take 500 ∧
    (((pcGet perCatW8 (("for_sale_sign").data) = none →
        (saveAnalysisResults (("f.pdf").data) (("img.png").data) (("claude-3-5-sonnet").data) 1 perCatW8 (("analysis raw response").data)).forSaleSignDetected
            = false ∧
          (saveAnalysisResults (("f.pdf").data) (("img.png").data) (("claude-3-5-sonnet").data) 1 perCatW8 (("analysis raw response").data)).forSaleSignConfidence
            = 0) ∧
      ∀ e, pcGet perCatW8 (("for_sale_sign").data) = some e →
        (saveAnalysisResults (("f.pdf").data) (("img.png").data) (("claude-3-5-sonnet").data) 1 perCatW8 (("analysis raw response").data)).forSaleSignDetected
            = e.detected ∧
          (saveAnalysisResults (("f.pdf").data) (("img.png").data) (("claude-3-5-sonnet").data) 1 perCatW8 (("analysis raw response").data)).forSaleSignConfidence
            = e.confidence) ∧
    ((pcGet perCatW8 (("solar_panels").data) = none →
        (saveAnalysisResults (("f.pdf").data) (("img.png").data) (("claude-3-5-sonnet").data) 1 perCatW8 (("analysis raw response").data)).solarPanelDetected
            = false ∧
          (saveAnalysisResults (("f.pdf").data) (("img.png").data) (("claude-3-5-sonnet").data) 1 perCatW8 (("analysis raw response").data)).solarPanelConfidence
            = 0) ∧
      ∀ e, pcGet perCatW8 (("solar_panels").data) = some e →
        (saveAnalysisResults (("f.pdf").data) (("img.png").data) (("claude-3-5-sonnet").data) 1 perCatW8 (("analysis raw response").data)).solarPanelDetected
            = e.detected ∧
          (saveAnalysisResults (("f.pdf").data) (("img.png").data) (("claude-3-5-sonnet").data) 1 perCatW8 (("analysis raw response").data)).solarPanelConfidence
            = e.confidence) ∧
    ((pcGet perCatW8 (("human_presence").data) = none →
        (saveAnalysisResults (("f.pdf").data) (("img.png").data) (("claude-3-5-sonnet").data) 1 perCatW8 (("analysis raw response").data)).humanPresenceDetected
            = false ∧
          (saveAnalysisResults (("f.pdf").data) (("img.png").data) (("claude-3-5-sonnet").data) 1 perCatW8 (("analysis raw response").data)).humanPresenceConfidence
            = 0) ∧
      ∀ e, pcGet perCatW8 (("human_presence").data) = some e →
        (saveAnalysisResults (("f.pdf").data) (("img.png").data) (("claude-3-5-sonnet").data) 1 perCatW8 (("analysis raw response").data)).humanPresenceDetected
            = e.detected ∧
          (saveAnalysisResults (("f.pdf").data) (("img.png").data) (("claude-3-5-sonnet").data) 1 perCatW8 (("analysis raw response").data)).humanPresenceConfidence
            = e.confidence) ∧
    ((pcGet perCatW8 (("potential_damage").data) = none →
        (saveAnalysisResults (("f.pdf").data) (("img.png").data) (("claude-3-5-sonnet").data) 1 perCatW8 (("analysis raw response").data)).potentialDamageDetected
            = false ∧
          (saveAnalysisResults (("f.pdf").data) (("img.png").data) (("claude-3-5-sonnet").data) 1 perCatW8 (("analysis raw response").data)).potentialDamageConfidence
            = 0) ∧
      ∀ e, pcGet perCatW8 (("potential_damage").data) = some e →
        (saveAnalysisResults (("f.pdf").data) (("img.png").data) (("claude-3-5-sonnet").data) 1 perCatW8 (("analysis raw response").data)).potentialDamageDetected
            = e.detected ∧
          (saveAnalysisResults (("f.pdf").data) (("img.png").data) (("claude-3-5-sonnet").data) 1 perCatW8 (("analysis raw response").data)).potentialDamageConfidence
            = e.confidence)) ∧
    jsonParse (saveAnalysisResults (("f.pdf").data) (("img.png").data) (("claude-3-5-sonnet").data) 1 perCatW8 (("analysis raw response").data)).metadataText
      = some (perCategoryJson perCatW8) ∧
    (saveAnalysisResults (("f.pdf").data) (("img.png").data) (("claude-3-5-sonnet").data) 1 perCatW8 (("analysis raw response").data)).fullAnalysisText
      = ("analysis raw response").data.take 500 :=
  ⟨by decide, by decide,
    (claim_C8_save_results (("f.pdf").data) (("img.png").data)
      (("claude-3-5-sonnet").data) 1 perCatW8 (("analysis raw response").data)).1,
    (claim_C8_save_results (("f.pdf").data) (("img.png").data)
      (("claude-3-5-sonnet").data) 1 perCatW8 (("analysis raw response").data)).2.1
      (by decide),
    (claim_C8_save_results (("f.pdf").data) (("img.png").data)
      (("claude-3-5-sonnet").data) 1 perCatW8 (("analysis raw response").data)).2.2
      (by decide)⟩

/-- C8 counterexample: a description containing a double quote makes
`json.dumps` emit a backslash escape that the quote-only SQL escaping
leaves bare, so the stored METADATA text decodes to invalid JSON and does
not store the mapping verbatim; likewise a backslash among the first 500
response characters makes the stored FULL_ANALYSIS_TEXT differ from the
500-character truncation — refuting the claim as stated, which covers
every per_category mapping and raw response. -/
theorem claim_C8_counterexample :
    jsonParse (saveAnalysisResults (("f.pdf").data) (("img.png").data) (("m").data) 1
        perCatBad (("resp").data)).metadataText = none ∧
    jsonParse (saveAnalysisResults (("f.pdf").data) (("img.png").data) (("m").data) 1
        perCatBad (("resp").data)).metadataText ≠ some (perCategoryJson perCatBad) ∧
    (saveAnalysisResults (("f.pdf").data) (("img.png").data) (("m").data) 1
        perCatBad (("a\\nb").data)).fullAnalysisText = ("anb").data ∧
    ("anb").data ≠ ("a\\nb").data.take 500 :=
  ⟨rfl,
    fun h => Option.noConfusion
      ((rfl : jsonParse (saveAnalysisResults (("f.pdf").data) (("img.png").data)
          (("m").data) 1 perCatBad (("resp").data)).metadataText = none).symm.trans h),
    rfl, by decide⟩

/-! ## Claim C10 -/

/-- C10 (amended): the text-content analysis is bounded — the prompt it
invokes the completion capability with depends only on the bounded view of
stored text (the file's first 5 rows ordered by page number, each clipped
to its first 1000 characters), so page content beyond these bounds never
influences the analysis; and the invoked prompt never exceeds 10035
characters: the assembled prompt is truncated to its first 10000
characters with a fixed 35-character truncation notice appended (refuting,
by `claim_C10_counterexample`, the claim's "truncates the assembled prompt
to 10000 characters" read as a 10000-character bound on what is sent). -/
theorem claim_C10_bounded_text_analysis (cats : List Category)
    (t1 t2 : List TextRow) (fileName : PyStr)
    (h : boundedTextView t1 fileName = boundedTextView t2 fileName) :
    cortexTextPrompt cats t1 fileName = cortexTextPrompt cats t2 fileName ∧
    (∀ pr : PyStr, cortexTextPrompt cats t1 fileName = some pr → pr.length ≤ 10035) := by
  constructor
  · unfold cortexTextPrompt
    rw [h]
  · intro pr hpr
    unfold cortexTextPrompt at hpr
    by_cases hnil : boundedTextView t1 fileName = []
    · rw [if_pos hnil] at hpr
      cases hpr
    · rw [if_neg hnil] at hpr
      by_cases hlen : 10000 < (buildAnalysisPrompt cats ++ contentHeader
          ++ joinSep [' '] (boundedTextView t1 fileName)).length
      · rw [if_pos hlen] at hpr
        have hpr2 := Option.some.inj hpr
        rw [← hpr2]
        simp only [List.length_append, List.length_take]
        have hnot : truncationNotice.length = 35 := by decide
        omega
      · rw [if_neg hlen] at hpr
        have hpr2 := Option.some.inj hpr
        rw [← hpr2]
        omega

/-- C10 witness: two stored-text tables agreeing on their first five pages
(but differing on a sixth) produce identical prompts, of bounded length. -/
theorem claim_C10_witness :
    boundedTextView tableA (("f.pdf").data) = boundedTextView tableB (("f.pdf").data) ∧
    (cortexTextPrompt defaultCategories tableA (("f.pdf").data)
        = cortexTextPrompt defaultCategories tableB (("f.pdf").data) ∧
      (∀ pr : PyStr,
        cortexTextPrompt defaultCategories tableA (("f.pdf").data) = some pr →
          pr.length ≤ 10035)) :=
  ⟨by decide,
    claim_C10_bounded_text_analysis defaultCategories tableA tableB
      (("f.pdf").data) (by decide)⟩

/-- C10 counterexample: with a (user-added) category whose question is
12000 characters long, the assembled prompt exceeds 10000 characters and
the prompt actually invoked has length 10035 — the first 10000 characters
plus the fixed 35-character truncation notice — exceeding the claimed
10000-character truncation bound. -/
theorem claim_C10_counterexample :
    (cortexTextPrompt bigCats tableW (("f.pdf").data)).map List.length = some 10035 ∧
    10000 < 10035 := by
  constructor
  · have hne : ¬ boundedTextView tableW (("f.pdf").data) = [] := by decide
    have hct : 12000 ≤ (categoryText bigCats).length := by
      show 12000 ≤ (categoryTextAux 1 bigCats).length
      simp only [bigCats, categoryTextAux, List.length_append, List.length_replicate]
      omega
    have hbap : (categoryText bigCats).length ≤ (buildAnalysisPrompt bigCats).length := by
      unfold buildAnalysisPrompt
      simp only [List.length_append]
      omega
    have hp : 10000 < (buildAnalysisPrompt bigCats ++ contentHeader
        ++ joinSep [' '] (boundedTextView tableW (("f.pdf").data))).length := by
      simp only [List.length_append]
      omega
    rw [show cortexTextPrompt bigCats tableW (("f.pdf").data)
        = some ((buildAnalysisPrompt bigCats ++ contentHeader
            ++ joinSep [' '] (boundedTextView tableW (("f.pdf").data))).take 10000
          ++ truncationNotice) from by
      unfold cortexTextPrompt
      rw [if_neg hne, if_pos hp]]
    simp only [Option.map_some', List.length_append, List.length_take]
    rw [Nat.min_eq_left (by omega)]
    decide
  · decide
